import Mathlib

/-!
Verification of the black-news RSS ingestion pipeline (src/core/rss_parser.py)
against its natural-language specification.

Python strings are modelled as `List Char`; machine floats used for times are
modelled as exact rationals; the SQLite store is modelled as explicit record
state.  The relevant pieces of the Python standard library (`urllib.parse`,
`re`-based helpers) are embedded faithfully for ASCII input, which is the
scope of every statement below.
-/

set_option maxRecDepth 4000

namespace BlackNews

/-- Python `str` modelled as a list of characters. -/
abbrev PyStr := List Char

/-- ASCII lowercase conversion of a single character (Python `str.lower`
restricted to ASCII, which is all the pipeline's denylist needs). -/
def toLowerChar (c : Char) : Char :=
  if 'A' ≤ c ∧ c ≤ 'Z' then Char.ofNat (c.toNat + 32) else c

/-- Python `str.lower` (ASCII scope). -/
def pyLower (s : PyStr) : PyStr := s.map toLowerChar

/-- Characters allowed in a URL scheme by `urllib.parse`
(`scheme_chars = letters ++ digits ++ "+-."`). -/
def isSchemeChar (c : Char) : Bool :=
  c.isAlpha || c.isDigit || c = '+' || c = '-' || c = '.'

/-- Python whitespace for `str.strip` / `re` class `\s` (ASCII scope). -/
def isPySpace (c : Char) : Bool :=
  c = ' ' || c = '\t' || c = '\n' || c = '\r' || c = '\x0b' || c = '\x0c'

/-- Python `str.strip()`: drop leading and trailing whitespace. -/
def pyStrip (s : PyStr) : PyStr :=
  ((s.dropWhile isPySpace).reverse.dropWhile isPySpace).reverse

/-- First index satisfying a predicate. -/
def findIdxP? (p : Char → Bool) : PyStr → Option Nat
  | [] => none
  | a :: rest => if p a then some 0 else (findIdxP? p rest).map (· + 1)

/-- `str.find(c)` / first index of a character, as an option. -/
def findChar? (c : Char) (s : PyStr) : Option Nat :=
  findIdxP? (· = c) s

/-- `s.split(c, 1)`: text before the first occurrence of `c`, and the text
after it when `c` occurs. -/
def splitOnce (c : Char) (s : PyStr) : PyStr × Option PyStr :=
  match findChar? c s with
  | some i => (s.take i, some (s.drop (i + 1)))
  | none => (s, none)

/-- `str.rfind(c)`: index of the last occurrence of `c`. -/
def rfindChar? (c : Char) (s : PyStr) : Option Nat :=
  match findChar? c s.reverse with
  | some j => some (s.length - 1 - j)
  | none => none

/-! ### `urllib.parse` splitting -/

/-- Result of `urllib.parse.urlsplit` (the `url` component is the path). -/
structure SplitResult where
  scheme : PyStr
  netloc : PyStr
  path : PyStr
  query : PyStr
  fragment : PyStr
deriving Repr, DecidableEq

/-- Result of `urllib.parse.urlparse`. -/
structure ParseResult where
  scheme : PyStr
  netloc : PyStr
  path : PyStr
  params : PyStr
  query : PyStr
  fragment : PyStr
deriving Repr, DecidableEq

/-- The scheme-splitting step of `urlsplit`: `i = url.find(':')`; a scheme is
recognised when `i > 0`, `url[0]` is an ASCII letter and every character of
`url[:i]` is a scheme character; the scheme is lowercased. -/
def splitScheme (url : PyStr) : PyStr × PyStr :=
  match findChar? ':' url with
  | some i =>
    if 0 < i ∧ (url.headD ' ').isAlpha ∧ (url.take i).all isSchemeChar then
      (pyLower (url.take i), url.drop (i + 1))
    else ([], url)
  | none => ([], url)

/-- `urllib.parse._splitnetloc`: the netloc runs from index 2 up to the first
`'/'`, `'?'` or `'#'`. -/
def splitNetloc (url : PyStr) : PyStr × PyStr :=
  let rest := url.drop 2
  match findIdxP? (fun c => c = '/' || c = '?' || c = '#') rest with
  | some j => (rest.take j, rest.drop j)
  | none => (rest, [])

/-- `urllib.parse.urlsplit` (ASCII scope).  Raises `ValueError` — modelled as
`Except.error` — on a netloc with a mismatched IPv6 bracket.  (CPython
additionally validates the interior of a matched bracket pair; bracketed
hosts are outside the scope of every statement below.) -/
def urlsplitE (url0 : PyStr) : Except Unit SplitResult :=
  let (scheme, url1) := splitScheme url0
  let (netloc, url2) :=
    if url1.take 2 = ['/', '/'] then splitNetloc url1 else ([], url1)
  if ('[' ∈ netloc ∧ ']' ∉ netloc) ∨ (']' ∈ netloc ∧ '[' ∉ netloc) then
    .error ()
  else
    let (url3, fragment) :=
      match splitOnce '#' url2 with
      | (a, some b) => (a, b)
      | (a, none) => (a, [])
    let (path, query) :=
      match splitOnce '?' url3 with
      | (a, some b) => (a, b)
      | (a, none) => (a, [])
    .ok ⟨scheme, netloc, path, query, fragment⟩

/-- `urllib.parse._splitparams`. -/
def splitParams (url : PyStr) : PyStr × PyStr :=
  match rfindChar? '/' url with
  | some r =>
    match findChar? ';' (url.drop r) with
    | some k => (url.take (r + k), url.drop (r + k + 1))
    | none => (url, [])
  | none =>
    match findChar? ';' url with
    | some i => (url.take i, url.drop (i + 1))
    | none => (url, [])

/-- `urllib.parse.urlparse` (ASCII scope). -/
def urlparseE (url : PyStr) : Except Unit ParseResult :=
  match urlsplitE url with
  | .error e => .error e
  | .ok s =>
    let (path, params) :=
      if ';' ∈ s.path then splitParams s.path else (s.path, [])
    .ok ⟨s.scheme, s.netloc, path, params, s.query, s.fragment⟩

/-! ### `urllib.parse` quoting and query strings -/

/-- Value of a hexadecimal digit. -/
def hexDigitVal (c : Char) : Option Nat :=
  if c.isDigit then some (c.toNat - '0'.toNat)
  else if 'a' ≤ c ∧ c ≤ 'f' then some (c.toNat - 'a'.toNat + 10)
  else if 'A' ≤ c ∧ c ≤ 'F' then some (c.toNat - 'A'.toNat + 10)
  else none

/-- `urllib.parse.unquote` (ASCII scope): decode `%XX` escapes; a `%` not
followed by two hex digits is kept literally.  (CPython assembles escaped
bytes into UTF-8 sequences; for bytes below `0x80` — the scope used here —
the per-byte decoding below coincides with it.) -/
def unquoteChars : PyStr → PyStr
  | [] => []
  | c :: rest =>
    if c = '%' then
      match rest with
      | a :: b :: rest2 =>
        match hexDigitVal a, hexDigitVal b with
        | some ha, some hb => Char.ofNat (16 * ha + hb) :: unquoteChars rest2
        | _, _ => '%' :: unquoteChars (a :: b :: rest2)
      | _ => '%' :: rest
    else c :: unquoteChars rest

/-- `urllib.parse.unquote_plus`: `+` becomes a space, then `%`-decode. -/
def unquotePlus (s : PyStr) : PyStr :=
  unquoteChars (s.map (fun c => if c = '+' then ' ' else c))

/-- The characters `urllib.parse.quote` never escapes
(letters, digits and `_.-~`). -/
def isAlwaysSafe (c : Char) : Bool :=
  c.isAlpha || c.isDigit || c = '_' || c = '.' || c = '-' || c = '~'

/-- Uppercase hexadecimal digit. -/
def hexDigitUpper (n : Nat) : Char :=
  if n < 10 then Char.ofNat ('0'.toNat + n) else Char.ofNat ('A'.toNat + n - 10)

/-- A percent-escaped byte, `%XY` with uppercase hex. -/
def percentEncodeByte (n : Nat) : PyStr :=
  ['%', hexDigitUpper (n / 16), hexDigitUpper (n % 16)]

/-- UTF-8 encoding of one character, as the byte values `quote` escapes. -/
def utf8Bytes (c : Char) : List Nat :=
  let n := c.toNat
  if n < 0x80 then [n]
  else if n < 0x800 then [0xC0 + n / 64, 0x80 + n % 64]
  else if n < 0x10000 then
    [0xE0 + n / 4096, 0x80 + (n / 64) % 64, 0x80 + n % 64]
  else
    [0xF0 + n / 262144, 0x80 + (n / 4096) % 64, 0x80 + (n / 64) % 64,
      0x80 + n % 64]

/-- `urllib.parse.quote` of one character with an extra safe set. -/
def quoteChar (safe : List Char) (c : Char) : PyStr :=
  if isAlwaysSafe c ∨ c ∈ safe then [c]
  else (utf8Bytes c).flatMap percentEncodeByte

/-- `urllib.parse.quote(s, safe)`. -/
def pyQuote (safe : List Char) (s : PyStr) : PyStr :=
  s.flatMap (quoteChar safe)

/-- `urllib.parse.quote_plus(s, safe='')`: when the string contains a space,
quote with space kept safe and then replace spaces by `+`. -/
def quotePlus (s : PyStr) : PyStr :=
  if ' ' ∈ s then
    (pyQuote [' '] s).map (fun c => if c = ' ' then '+' else c)
  else pyQuote [] s

/-- One `name=value` piece of `urllib.parse.parse_qsl` with
`keep_blank_values=False`: empty pieces, pieces without `=` and pieces with
an empty value are all skipped. -/
def parseQslPair (piece : PyStr) : Option (PyStr × PyStr) :=
  if piece = [] then none
  else
    match splitOnce '=' piece with
    | (_, none) => none
    | (name, some value) =>
      if value = [] then none
      else some (unquotePlus name, unquotePlus value)

/-- Python `str.split(c)` (no maxsplit): the empty string yields `[""]`. -/
def pySplitChar (c : Char) : PyStr → List PyStr
  | [] => [[]]
  | a :: rest =>
    if a = c then [] :: pySplitChar c rest
    else
      match pySplitChar c rest with
      | [] => [[a]]
      | piece :: more => (a :: piece) :: more

/-- `urllib.parse.parse_qsl(qs)` with default arguments
(`qs.split('&')`, one pair per piece). -/
def parseQsl (qs : PyStr) : List (PyStr × PyStr) :=
  (pySplitChar '&' qs).filterMap parseQslPair

/-- Insertion into the `parse_qs` dictionary: append to an existing key's
value list, else add the key at the end (Python dicts preserve insertion
order). -/
def upsertQs (d : List (PyStr × List PyStr)) (k : PyStr) (v : PyStr) :
    List (PyStr × List PyStr) :=
  match d with
  | [] => [(k, [v])]
  | (k', vs) :: rest =>
    if k' = k then (k', vs ++ [v]) :: rest else (k', vs) :: upsertQs rest k v

/-- `urllib.parse.parse_qs(qs)`: group the `parse_qsl` pairs by key. -/
def parseQs (qs : PyStr) : List (PyStr × List PyStr) :=
  (parseQsl qs).foldl (fun d kv => upsertQs d kv.1 kv.2) []

/-- Python `'&'.join(l)`. -/
def joinAmp : List PyStr → PyStr
  | [] => []
  | [p] => p
  | p :: rest => p ++ '&' :: joinAmp rest

/-- `urllib.parse.urlencode(d, doseq=True)` on a dictionary mapping keys to
lists of string values: one `quote_plus(k)=quote_plus(v)` piece per value,
joined by `&`. -/
def urlencodeSeq (d : List (PyStr × List PyStr)) : PyStr :=
  joinAmp
    (d.flatMap (fun kv => kv.2.map (fun v => quotePlus kv.1 ++ '=' :: quotePlus v)))

/-- `urllib.parse.urlunsplit`. -/
def urlunsplit (scheme netloc url query fragment : PyStr) : PyStr :=
  let url1 :=
    if netloc ≠ [] ∨ (url ≠ [] ∧ url.take 2 = ['/', '/']) then
      '/' :: '/' :: netloc ++ (if url ≠ [] ∧ url.take 1 ≠ ['/'] then '/' :: url else url)
    else url
  let url2 := if scheme ≠ [] then scheme ++ ':' :: url1 else url1
  let url3 := if query ≠ [] then url2 ++ '?' :: query else url2
  if fragment ≠ [] then url3 ++ '#' :: fragment else url3

/-- `urllib.parse.urlunparse`. -/
def urlunparse (p : ParseResult) : PyStr :=
  let url := if p.params ≠ [] then p.path ++ ';' :: p.params else p.path
  urlunsplit p.scheme p.netloc url p.query p.fragment

/-! ### DeduplicationManager: URL normalization -/

/-- The tracking-parameter denylist of
`DeduplicationManager._is_tracking_param`. -/
def trackingParams : List PyStr :=
  ["utm_source".toList, "utm_medium".toList, "utm_campaign".toList,
   "utm_term".toList, "utm_content".toList, "fbclid".toList, "gclid".toList,
   "msclkid".toList, "trk".toList, "tracking".toList, "ref".toList]

/-- `DeduplicationManager._is_tracking_param`: lowercased membership in the
denylist. -/
def isTrackingParam (p : PyStr) : Bool :=
  trackingParams.contains (pyLower p)

/-- `DeduplicationManager._normalize_url`: parse, drop tracking query
parameters, re-encode and rebuild; on a parse error return the input
unchanged. -/
def normalizeUrl (url : PyStr) : PyStr :=
  match urlparseE url with
  | .error _ => url
  | .ok parsed =>
    let queryParams := parseQs parsed.query
    let filteredParams := queryParams.filter (fun kv => !isTrackingParam kv.1)
    let normalizedQuery := urlencodeSeq filteredParams
    urlunparse ⟨parsed.scheme, parsed.netloc, parsed.path, parsed.params,
      normalizedQuery, parsed.fragment⟩

/-! ### `datetime.datetime` (naive, second precision — the pipeline never
uses sub-second fields) -/

/-- Gregorian leap year, as `calendar.isleap`. -/
def isLeap (y : Nat) : Bool :=
  (y % 4 = 0 ∧ y % 100 ≠ 0) ∨ y % 400 = 0

/-- Days in a month, as `datetime` uses for validation. -/
def daysInMonth (y m : Nat) : Nat :=
  if m = 2 then (if isLeap y then 29 else 28)
  else if m = 4 ∨ m = 6 ∨ m = 9 ∨ m = 11 then 30
  else 31

/-- A naive `datetime.datetime` value. -/
structure PyDateTime where
  year : Nat
  month : Nat
  day : Nat
  hour : Nat
  minute : Nat
  second : Nat
deriving Repr, DecidableEq

/-- Injective chronological key: `datetime` comparison is lexicographic on
the fields, which for in-range fields coincides with this mixed-radix
number. -/
def PyDateTime.key (d : PyDateTime) : Nat :=
  ((((d.year * 13 + d.month) * 32 + d.day) * 24 + d.hour) * 60 + d.minute) * 60
    + d.second

/-- The field ranges `datetime.datetime` enforces. -/
def PyDateTime.Valid (d : PyDateTime) : Prop :=
  1 ≤ d.year ∧ d.year ≤ 9999 ∧ 1 ≤ d.month ∧ d.month ≤ 12 ∧ 1 ≤ d.day ∧
    d.day ≤ daysInMonth d.year d.month ∧ d.hour ≤ 23 ∧ d.minute ≤ 59 ∧
    d.second ≤ 59

instance (d : PyDateTime) : Decidable d.Valid := by
  unfold PyDateTime.Valid; infer_instance

/-- `datetime(y, mo, d, h, mi, s)`: `None` models the `ValueError` raised on
an out-of-range field. -/
def mk6 (y mo d h mi s : Int) : Option PyDateTime :=
  if 1 ≤ y ∧ y ≤ 9999 ∧ 1 ≤ mo ∧ mo ≤ 12 ∧ 1 ≤ d ∧ 0 ≤ h ∧ h ≤ 23 ∧
      0 ≤ mi ∧ mi ≤ 59 ∧ 0 ≤ s ∧ s ≤ 59 then
    if d.toNat ≤ daysInMonth y.toNat mo.toNat then
      some ⟨y.toNat, mo.toNat, d.toNat, h.toNat, mi.toNat, s.toNat⟩
    else none
  else none

/-- `datetime(*date_tuple[:6])` on a time tuple: fewer than three leading
values is a `TypeError`, out-of-range values a `ValueError`; both model as
`none`. -/
def mkDatetime (t : List Int) : Option PyDateTime :=
  match t.take 6 with
  | [y, mo, d] => mk6 y mo d 0 0 0
  | [y, mo, d, h] => mk6 y mo d h 0 0
  | [y, mo, d, h, mi] => mk6 y mo d h mi 0
  | [y, mo, d, h, mi, s] => mk6 y mo d h mi s
  | _ => none

/-- `d + timedelta(days=1)` on the calendar. -/
def addOneDay (d : PyDateTime) : PyDateTime :=
  if d.day < daysInMonth d.year d.month then { d with day := d.day + 1 }
  else if d.month < 12 then { d with month := d.month + 1, day := 1 }
  else { d with year := d.year + 1, month := 1, day := 1 }

/-- Adding a day strictly increases the chronological key of a valid
datetime. -/
theorem key_lt_key_addOneDay (d : PyDateTime) (h : d.Valid) :
    d.key < (addOneDay d).key := by
  obtain ⟨h1, h2, h3, h4, h5, h6, h7, h8, h9⟩ := h
  have hdm : daysInMonth d.year d.month ≤ 31 := by
    unfold daysInMonth
    split
    · split <;> omega
    · split <;> omega
  unfold addOneDay PyDateTime.key
  split
  · simp only
    nlinarith
  · split
    · simp only
      nlinarith [h6, hdm]
    · simp only
      nlinarith [h6, hdm, h4]

/-! ### Storage model (SQLite tables of `core/database.py`) -/

/-- A row of the `news` table (`url` is `UNIQUE NOT NULL`). -/
structure NewsRow where
  id : Nat
  url : PyStr
  title : PyStr
  summary : PyStr
  content : PyStr
  sourceName : PyStr
  publishedAt : PyDateTime
  imageUrl : Option PyStr
deriving Repr, DecidableEq

/-- A row of the `rss_sources` table (the fields the parser touches). -/
structure RssSourceRow where
  id : Nat
  lastFetched : Option PyDateTime
deriving Repr, DecidableEq

/-- A row of the `fetch_logs` table. -/
structure FetchLogRow where
  rssSourceId : Nat
  success : Bool
  itemsFetched : Nat
  errorMessage : Option PyStr
  fetchedAt : PyDateTime
deriving Repr, DecidableEq

/-- The database state.  `broken = true` models a storage layer whose every
statement raises (the `StorageError` scenarios of the spec);
`nextNewsId` models the `AUTOINCREMENT` counter. -/
structure Db where
  news : List NewsRow
  sources : List RssSourceRow
  fetchLogs : List FetchLogRow
  nextNewsId : Nat
  broken : Bool
deriving Repr, DecidableEq

/-- `SELECT id FROM news WHERE url = ?` via `fetchone`; raises when the
storage layer is broken. -/
def Db.fetchNewsIdByUrl (db : Db) (u : PyStr) : Except Unit (Option Nat) :=
  if db.broken then .error ()
  else .ok ((db.news.find? (fun r => r.url = u)).map (·.id))

/-- `SELECT last_fetched FROM rss_sources WHERE id = ?` (observer used by
the theorems). -/
def Db.lastFetchedOf (db : Db) (sid : Nat) : Option (Option PyDateTime) :=
  (db.sources.find? (fun s => s.id = sid)).map (·.lastFetched)

/-! ### DeduplicationManager -/

/-- `DeduplicationManager._check_database_duplicate`: existence lookup by
exact URL; any storage exception degrades to `false`.  (The `url_hash`
computed in the source is never used by the query and is omitted.) -/
def checkDatabaseDuplicate (db : Db) (url : PyStr) : Bool :=
  match db.fetchNewsIdByUrl url with
  | .ok r => r.isSome
  | .error _ => false

/-- `DeduplicationManager.is_duplicate`: a falsy URL (Python `None` or the
empty string) is a duplicate; otherwise normalize and look up. -/
def isDuplicate (db : Db) (url : Option PyStr) : Bool :=
  match url with
  | none => true
  | some u =>
    if u = [] then true
    else checkDatabaseDuplicate db (normalizeUrl u)

/-! ### NewsValidator -/

/-- The news dictionary built by `RSSParser._standardize_news_entry`
(`url` is `None` when `_build_absolute_url` returns `None`). -/
structure NewsData where
  url : Option PyStr
  title : PyStr
  summary : PyStr
  content : PyStr
  sourceName : PyStr
  publishedAt : PyDateTime
  imageUrl : Option PyStr
  sourceId : Nat
deriving Repr, DecidableEq

/-- `NewsValidator._is_valid_url`: scheme and netloc both non-empty;
`urlparse(None)` raises, which the `except` turns into `False`. -/
def isValidUrlOpt (url : Option PyStr) : Bool :=
  match url with
  | none => false
  | some u =>
    match urlparseE u with
    | .error _ => false
    | .ok r => !r.scheme.isEmpty && !r.netloc.isEmpty

/-- The f-string `f"无效的URL格式: {url}"`. -/
def invalidUrlMsg (url : Option PyStr) : PyStr :=
  "无效的URL格式: ".toList ++ (match url with | none => "None".toList | some u => u)

/-- `NewsValidator.validate_news_data`, returning the list of collected
error strings (the Python code raises `ValueError` on a non-empty list). -/
def validateNewsData (now : PyDateTime) (nd : NewsData) : List PyStr :=
  (if nd.url = none ∨ nd.url = some [] then ["URL不能为空".toList] else []) ++
  (if nd.title = [] then ["标题不能为空".toList] else []) ++
  (if !isValidUrlOpt nd.url then [invalidUrlMsg nd.url] else []) ++
  (if (addOneDay now).key < nd.publishedAt.key then ["发布时间不能在未来".toList] else [])

/-- `dropWhile` never lengthens a list. -/
theorem length_dropWhile_le {α : Type} (p : α → Bool) :
    ∀ l : List α, (l.dropWhile p).length ≤ l.length
  | [] => le_refl _
  | a :: l => by
    by_cases h : p a
    · rw [List.dropWhile_cons_of_pos h]
      exact Nat.le_succ_of_le (length_dropWhile_le p l)
    · rw [List.dropWhile_cons_of_neg (by simpa using h)]

/-- `takeWhile` never lengthens a list. -/
theorem length_takeWhile_le {α : Type} (p : α → Bool) :
    ∀ l : List α, (l.takeWhile p).length ≤ l.length
  | [] => le_refl _
  | a :: l => by
    by_cases h : p a
    · rw [List.takeWhile_cons_of_pos h]
      exact Nat.succ_le_succ (length_takeWhile_le p l)
    · rw [List.takeWhile_cons_of_neg (by simpa using h)]
      exact Nat.zero_le _

/-- `re.sub(r'\s+', ' ', s)`: collapse each maximal whitespace run to one
space (a whitespace character is dropped when the next character is also
whitespace, so each run contributes exactly one space). -/
def collapseWs : PyStr → PyStr
  | [] => []
  | [c] => if isPySpace c then [' '] else [c]
  | c :: d :: rest =>
    if isPySpace c then
      if isPySpace d then collapseWs (d :: rest)
      else ' ' :: collapseWs (d :: rest)
    else c :: collapseWs (d :: rest)

/-- Cleaning of one text field in `sanitize_news_data`: applied only when
the field is truthy. -/
def sanitizeField (s : PyStr) : PyStr :=
  if s = [] then s else collapseWs (pyStrip s)

/-- `NewsValidator.sanitize_news_data`: whitespace-normalize
title/summary/content, then cap a truthy content at 10000 characters with a
trailing `'...'`. -/
def sanitizeNewsData (nd : NewsData) : NewsData :=
  let nd1 := { nd with title := sanitizeField nd.title,
                       summary := sanitizeField nd.summary,
                       content := sanitizeField nd.content }
  if nd1.content ≠ [] ∧ 10000 < nd1.content.length then
    { nd1 with content := nd1.content.take 10000 ++ "...".toList }
  else nd1

/-! ### Persistence and fetch-status bookkeeping -/

/-- `RSSParser._save_news`: `INSERT OR IGNORE` keyed on the unique `url`
column, then read the id back; every failure path (broken storage, ignored
duplicate insert, `NULL` url) yields `None`. -/
def saveNews (db : Db) (nd : NewsData) : Option Nat × Db :=
  match nd.url with
  | none => (none, db)
  | some u =>
    if db.broken then (none, db)
    else if db.news.any (fun r => r.url = u) then (none, db)
    else
      let row : NewsRow := ⟨db.nextNewsId, u, nd.title, nd.summary,
        nd.content, nd.sourceName, nd.publishedAt, nd.imageUrl⟩
      let db' : Db := { db with news := db.news ++ [row],
                                nextNewsId := db.nextNewsId + 1 }
      (((db'.news.find? (fun r => r.url = u)).map (·.id)), db')

/-- `RSSParser._update_fetch_status`: unconditionally stamp
`last_fetched = now` for the source, then append a fetch-log row; a broken
storage layer makes both statements raise, which the `except` swallows. -/
def updateFetchStatus (db : Db) (sourceId : Nat) (success : Bool)
    (itemsFetched : Nat) (errorMessage : Option PyStr) (now : PyDateTime) :
    Db :=
  if db.broken then db
  else
    { db with
      sources := db.sources.map
        (fun s => if s.id = sourceId then { s with lastFetched := some now } else s),
      fetchLogs := db.fetchLogs ++
        [⟨sourceId, success, itemsFetched, errorMessage, now⟩] }

/-! ### Feed entries and the standardizer -/

/-- An `RSSSource` as the parser uses it. -/
structure RSSSource where
  id : Nat
  name : PyStr
  url : PyStr
deriving Repr, DecidableEq

/-- A parsed `feedparser` entry.  `none` models an absent attribute
(`getattr` default, or an `AttributeError` for the mandatory `link`);
time tuples are `struct_time`-style integer lists. -/
structure FeedEntry where
  title : Option PyStr
  summary : Option PyStr
  description : Option PyStr
  contentValues : Option (List PyStr)
  publishedParsed : Option (List Int)
  updatedParsed : Option (List Int)
  createdParsed : Option (List Int)
  link : Option PyStr
  mediaContent : List (PyStr × Option PyStr)
  enclosures : List (PyStr × Option PyStr)
deriving Repr, DecidableEq

/-- `re.sub(r'<[^>]+>', '', s)` with explicit fuel for the jump past a
matched group: remove each `<...>` group with a non-empty interior.  One
fuel unit is spent per step while the string shrinks by at least one
character, so `s.length` fuel (as `stripTags` passes) never runs out. -/
def stripTagsGo : Nat → PyStr → PyStr
  | _, [] => []
  | 0, s => s
  | fuel + 1, c :: rest =>
    if c = '<' then
      let inner := rest.takeWhile (· ≠ '>')
      if inner ≠ [] ∧ rest.drop inner.length ≠ [] then
        stripTagsGo fuel (rest.drop (inner.length + 1))
      else c :: stripTagsGo fuel rest
    else c :: stripTagsGo fuel rest

/-- `re.sub(r'<[^>]+>', '', s)`. -/
def stripTags (s : PyStr) : PyStr := stripTagsGo s.length s

/-- `RSSParser._clean_html`: falsy text maps to the empty string, otherwise
strip tags and trim. -/
def cleanHtml (s : PyStr) : PyStr :=
  if s = [] then [] else pyStrip (stripTags s)

/-- `RSSParser._extract_title`. -/
def extractTitle (e : FeedEntry) : PyStr :=
  pyStrip (e.title.getD [])

/-- `RSSParser._extract_summary`: summary falling back to description, then
HTML-clean and trim. -/
def extractSummary (e : FeedEntry) : PyStr :=
  let s := e.summary.getD []
  let s := if s = [] then e.description.getD [] else s
  pyStrip (cleanHtml s)

/-- `RSSParser._extract_content`: prefer `content[0].value`, else
summary/description; HTML-clean and trim. -/
def extractContent (e : FeedEntry) : PyStr :=
  let c :=
    match e.contentValues with
    | some (v :: _) => v
    | _ =>
      let s := e.summary.getD []
      if s = [] then e.description.getD [] else s
  pyStrip (cleanHtml c)

/-- One probe of `_extract_published_date`: the field must be present,
truthy, and build a valid `datetime` from its first six values. -/
def tryDateField (f : Option (List Int)) : Option PyDateTime :=
  match f with
  | none => none
  | some t => if t = [] then none else mkDatetime t

/-- `RSSParser._extract_published_date`: probe
`published_parsed`, `updated_parsed`, `created_parsed` in order; fall back
to the current UTC time. -/
def extractPublishedDate (now : PyDateTime) (e : FeedEntry) : PyDateTime :=
  match tryDateField e.publishedParsed with
  | some d => d
  | none =>
    match tryDateField e.updatedParsed with
    | some d => d
    | none =>
      match tryDateField e.createdParsed with
      | some d => d
      | none => now

/-- Text after the first occurrence of `src="` within a tag body. -/
def afterSrcQuote : PyStr → Option (Nat × PyStr)
  | [] => none
  | c :: rest =>
    if "src=\"".toList.isPrefixOf (c :: rest) then some (0, (c :: rest).drop 5)
    else (afterSrcQuote rest).map (fun p => (p.1 + 1, p.2))

/-- The regex scan `<img[^>]+src="([^">]+)"` of `_extract_image`, for image
tags whose body holds a single quoted `src` attribute (the shape the
backtracking engine and this scanner agree on; no claim below depends on
this field). -/
def findImgSrc : PyStr → Option PyStr
  | [] => none
  | c :: rest =>
    if "<img".toList.isPrefixOf (c :: rest) then
      let body := ((c :: rest).drop 4).takeWhile (· ≠ '>')
      match afterSrcQuote body with
      | some (i, t) =>
        let cap := t.takeWhile (fun ch => ch ≠ '"' ∧ ch ≠ '>')
        if 1 ≤ i ∧ cap ≠ [] ∧ (t.drop cap.length).take 1 = ['"'] then some cap
        else findImgSrc rest
      | none => findImgSrc rest
    else findImgSrc rest

/-- `RSSParser._extract_image`: first image-typed media content, then first
image-typed enclosure, then the `<img>` scan over content+summary. -/
def extractImage (e : FeedEntry) : Option PyStr :=
  match e.mediaContent.find? (fun m => "image/".toList.isPrefixOf m.1) with
  | some m => m.2
  | none =>
    match e.enclosures.find? (fun m => "image/".toList.isPrefixOf m.1) with
    | some m => m.2
    | none =>
      let base :=
        match e.contentValues with
        | some (v :: _) => v
        | some [] => []
        | none => []
      findImgSrc (base ++ e.summary.getD [])

/-- `RSSParser._build_absolute_url`: falsy link gives `None`; an
`http(s)://` link passes through; otherwise join with the feed URL.
`urljoinModel` abbreviates the `urllib.parse.urljoin` call for the
root-relative and relative-segment cases; every statement below uses
absolute links, where the branch is never taken. -/
def urljoinModel (base url : PyStr) : PyStr :=
  match urlsplitE base with
  | .error _ => url
  | .ok b =>
    if url.take 1 = ['/'] then
      urlunsplit b.scheme b.netloc url [] []
    else
      let dir := b.path.take ((rfindChar? '/' b.path).map (· + 1) |>.getD 0)
      urlunsplit b.scheme b.netloc (dir ++ url) [] []

/-- `RSSParser._build_absolute_url`. -/
def buildAbsoluteUrl (url : PyStr) (baseUrl : PyStr) : Option PyStr :=
  if url = [] then none
  else if "http://".toList.isPrefixOf url ∨ "https://".toList.isPrefixOf url then
    some url
  else some (urljoinModel baseUrl url)

/-- `RSSParser._standardize_news_entry`; an entry without a `link`
attribute raises `AttributeError`, modelled as `Except.error`. -/
def standardizeNewsEntry (now : PyDateTime) (e : FeedEntry) (src : RSSSource) :
    Except Unit NewsData :=
  match e.link with
  | none => .error ()
  | some link =>
    .ok { url := buildAbsoluteUrl link src.url,
          title := extractTitle e,
          summary := extractSummary e,
          content := extractContent e,
          sourceName := src.name,
          publishedAt := extractPublishedDate now e,
          imageUrl := extractImage e,
          sourceId := src.id }

/-! ### Per-entry processing -/

/-- One iteration of the `_process_feed_entries` loop: standardize,
validate, sanitize, dedup-check, persist; every failure path skips the
entry (`continue`), touching nothing.  Returns whether the new-item counter
is incremented, together with the database state. -/
def processEntry (now : PyDateTime) (src : RSSSource) (db : Db)
    (e : FeedEntry) : Bool × Db :=
  match standardizeNewsEntry now e src with
  | .error _ => (false, db)
  | .ok nd0 =>
    if validateNewsData now nd0 ≠ [] then (false, db)
    else
      let nd := sanitizeNewsData nd0
      if isDuplicate db nd.url then (false, db)
      else
        match saveNews db nd with
        | (some _, db') => (true, db')
        | (none, db') => (false, db')

/-- `RSSParser._process_feed_entries`: fold the loop over the entry list,
returning the new-item count and the final database state. -/
def processFeedEntries (now : PyDateTime) (src : RSSSource) (db : Db) :
    List FeedEntry → Nat × Db
  | [] => (0, db)
  | e :: rest =>
    let step := processEntry now src db e
    let tail := processFeedEntries now src step.2 rest
    ((if step.1 then 1 else 0) + tail.1, tail.2)

/-! ### RSSMonitor -/

/-- The per-source outcome dictionary `_fetch_single_feed` returns
(`new_items`/`total_items` are absent on failure, which
`result.get(..., 0)` reads as 0). -/
structure FetchResult where
  source : PyStr
  success : Bool
  newItems : Nat
  totalItems : Nat
  error : Option PyStr
deriving Repr, DecidableEq

/-- The in-memory counters of `RSSMonitor`. -/
structure RSSMetrics where
  totalFeeds : Nat
  successfulFeeds : Nat
  failedFeeds : Nat
  totalNews : Nat
  newNews : Nat
  lastFetchTime : Option PyDateTime
deriving Repr, DecidableEq

/-- `RSSMonitor.__init__`. -/
def initMetrics : RSSMetrics := ⟨0, 0, 0, 0, 0, none⟩

/-- `RSSMonitor.record_fetch_result`. -/
def recordFetchResult (now : PyDateTime) (m : RSSMetrics) (r : FetchResult) :
    RSSMetrics :=
  let m1 := { m with totalFeeds := m.totalFeeds + 1 }
  let m2 :=
    if r.success then
      { m1 with successfulFeeds := m1.successfulFeeds + 1,
                totalNews := m1.totalNews + r.totalItems,
                newNews := m1.newNews + r.newItems }
    else { m1 with failedFeeds := m1.failedFeeds + 1 }
  { m2 with lastFetchTime := some now }

/-- The four health strings. -/
inductive HealthStatus where
  | unknown
  | healthy
  | degraded
  | unhealthy
deriving Repr, DecidableEq

/-- `RSSMonitor.get_health_status`: the float division of the source is
modelled as exact rational division. -/
def getHealthStatus (m : RSSMetrics) : HealthStatus :=
  if m.totalFeeds = 0 then .unknown
  else
    let successRate : ℚ := (m.successfulFeeds : ℚ) / (m.totalFeeds : ℚ)
    if (4 : ℚ) / 5 ≤ successRate then .healthy
    else if (1 : ℚ) / 2 ≤ successRate then .degraded
    else .unhealthy

/-! ### The retry decorator and the fetch executor -/

/-- The `RSSError` subclasses the retry decorator is configured to catch. -/
inductive RssError where
  | fetchError (msg : PyStr)
  | parseError (msg : PyStr)
deriving Repr, DecidableEq

/-- `str(e)` for an `RSSError`. -/
def RssError.msg : RssError → PyStr
  | .fetchError m => m
  | .parseError m => m

/-- Observable trace of one run of a `retry_on_failure`-wrapped coroutine:
final result, threaded state, number of attempts made, and the sleeps
performed between attempts. -/
structure RetryTrace (ε α σ : Type) where
  result : Except ε α
  state : σ
  attemptsMade : Nat
  sleeps : List Int
deriving Repr

/-- The `for attempt in range(max_retries + 1)` loop of the
`retry_on_failure` wrapper.  `remaining` is `max_retries - attempt`; on a
caught exception with retries remaining the wrapper sleeps `curDelay`,
multiplies the delay by `backoff` and tries again; otherwise it re-raises
the last exception. -/
def retryGo {ε α σ : Type} (f : Nat → σ → Except ε α × σ) (backoff : Int) :
    Nat → Nat → Int → σ → List Int → RetryTrace ε α σ
  | attempt, remaining, curDelay, s, sleeps =>
    match f attempt s with
    | (.ok a, s') => ⟨.ok a, s', attempt + 1, sleeps⟩
    | (.error e, s') =>
      match remaining with
      | 0 => ⟨.error e, s', attempt + 1, sleeps⟩
      | r + 1 =>
        retryGo f backoff (attempt + 1) r (curDelay * backoff) s'
          (sleeps ++ [curDelay])

/-- `retry_on_failure(max_retries, delay, backoff)` applied to a
state-threading coroutine body (the body receives its attempt index so that
per-attempt external behaviour can be modelled). -/
def retryOnFailure {ε α σ : Type} (maxRetries : Nat) (delay backoff : Int)
    (f : Nat → σ → Except ε α × σ) (s : σ) : RetryTrace ε α σ :=
  retryGo f backoff 0 maxRetries delay s []

/-- State threaded through a fetch: the database plus the monitor
counters. -/
structure PipelineState where
  db : Db
  metrics : RSSMetrics
deriving Repr, DecidableEq

/-- The body of `RSSParser._fetch_single_feed` (the `try`/`except` block):
`oracle attempt` is the combined outcome of `_make_request` +
`_parse_feed` on the given attempt — `RSSFetchError` on HTTP/network
failure, `RSSParseError` on a malformed or empty feed, or the entry list.
The catch-all `except` turns every exception into a normal `success=False`
return after recording the failure, so the body never raises. -/
def fetchSingleFeedBody (oracle : Nat → Except RssError (List FeedEntry))
    (src : RSSSource) (now : PyDateTime) (attempt : Nat)
    (st : PipelineState) : FetchResult × PipelineState :=
  match oracle attempt with
  | .error err =>
    let db' := updateFetchStatus st.db src.id false 0 (some err.msg) now
    let result : FetchResult := ⟨src.name, false, 0, 0, some err.msg⟩
    (result, ⟨db', recordFetchResult now st.metrics result⟩)
  | .ok entries =>
    let step := processFeedEntries now src st.db entries
    let db2 := updateFetchStatus step.2 src.id true step.1 none now
    let result : FetchResult := ⟨src.name, true, step.1, entries.length, none⟩
    (result, ⟨db2, recordFetchResult now st.metrics result⟩)

/-- `RSSParser._fetch_single_feed` as decorated:
`@retry_on_failure(max_retries=3, delay=2, exceptions=(RSSFetchError,
RSSParseError))` around the body above. -/
def fetchSingleFeed (oracle : Nat → Except RssError (List FeedEntry))
    (src : RSSSource) (now : PyDateTime) (st : PipelineState) :
    RetryTrace RssError FetchResult PipelineState :=
  retryOnFailure 3 2 2
    (fun attempt s =>
      let r := fetchSingleFeedBody oracle src now attempt s
      ((Except.ok r.1 : Except RssError FetchResult), r.2))
    st

/-! ### RateLimiter -/

/-- Outcome of `RateLimiter.acquire`: the `IndexError` of reading
`self.requests[0]` from an empty deque (reachable only when
`max_requests = 0`), or the updated timestamp deque together with the
return time. -/
inductive AcqResult where
  | indexError
  | out (requests : List ℚ) (finishedAt : ℚ)
deriving Repr, DecidableEq

/-- `RateLimiter.acquire` at clock value `now`, with explicit fuel for the
tail-recursive re-check.  Eviction pops timestamps `≤ now - window`; at
capacity the caller sleeps until the oldest entry leaves the window and
re-checks (`await asyncio.sleep` modelled as advancing the clock by exactly
the sleep amount — the sequential, exact-sleep execution). -/
def acquireGo (maxRequests : Nat) (window : ℚ) :
    Nat → List ℚ → ℚ → Option AcqResult
  | 0, _, _ => none
  | fuel + 1, reqs, now =>
    let evicted := reqs.dropWhile (fun t => t ≤ now - window)
    if maxRequests ≤ evicted.length then
      match evicted.head? with
      | none => some .indexError
      | some r0 =>
        let sleepTime := r0 + window - now
        if 0 < sleepTime then
          acquireGo maxRequests window fuel evicted (now + sleepTime)
        else some (.out (evicted ++ [now]) now)
    else some (.out (evicted ++ [now]) now)

/-- `RateLimiter.acquire`; the fuel `|requests| + 1` is proven sufficient
below. -/
def acquire (maxRequests : Nat) (window : ℚ) (reqs : List ℚ) (now : ℚ) :
    Option AcqResult :=
  acquireGo maxRequests window (reqs.length + 1) reqs now

/-- A sequence of sequential `acquire()` calls on one limiter, starting
from the state `reqs` with the previous call finished at `now`: each list
element is the caller-side delay (≥ 0) before the next call.  Returns the
deque state and return time after every call. -/
def runAcquires (maxRequests : Nat) (window : ℚ) :
    List ℚ → ℚ → List ℚ → Option (List (List ℚ × ℚ))
  | _, _, [] => some []
  | reqs, now, d :: ds =>
    match acquire maxRequests window reqs (now + d) with
    | some (.out reqs' now') =>
      (runAcquires maxRequests window reqs' now' ds).map
        (fun tr => (reqs', now') :: tr)
    | _ => none

/-! ## Supporting lemmas and claim theorems -/

/-- `record_fetch_result` always increments `total_feeds`. -/
theorem recordFetchResult_totalFeeds (now : PyDateTime) (m : RSSMetrics)
    (r : FetchResult) :
    (recordFetchResult now m r).totalFeeds = m.totalFeeds + 1 := by
  unfold recordFetchResult
  by_cases h : r.success <;> simp [h]

/-- `record_fetch_result` increments `successful_feeds` exactly on
success. -/
theorem recordFetchResult_successfulFeeds (now : PyDateTime) (m : RSSMetrics)
    (r : FetchResult) :
    (recordFetchResult now m r).successfulFeeds =
      m.successfulFeeds + (if r.success then 1 else 0) := by
  unfold recordFetchResult
  by_cases h : r.success <;> simp [h]

/-- Counter values after recording a list of outcomes. -/
theorem recordFold_counts (now : PyDateTime) :
    ∀ (rs : List FetchResult) (m : RSSMetrics),
      ((rs.foldl (recordFetchResult now) m).totalFeeds
          = m.totalFeeds + rs.length) ∧
      ((rs.foldl (recordFetchResult now) m).successfulFeeds
          = m.successfulFeeds + rs.countP (·.success))
  | [], m => by simp
  | r :: rs, m => by
    obtain ⟨ih1, ih2⟩ := recordFold_counts now rs (recordFetchResult now m r)
    refine ⟨?_, ?_⟩
    · rw [List.foldl_cons, ih1, recordFetchResult_totalFeeds]
      simp only [List.length_cons]
      omega
    · rw [List.foldl_cons, ih2, recordFetchResult_successfulFeeds,
        List.countP_cons]
      by_cases h : r.success
      · simp [h]
        omega
      · simp [h]

/-- The spec's health classifier (§4.8): `healthy` when
successful/total ≥ 0.8, `degraded` when ≥ 0.5, else `unhealthy`;
`unknown` when no feeds were recorded.  Stated with integer arithmetic:
s/t ≥ 4/5 iff 4t ≤ 5s. -/
def healthStatusSpec (total successful : Nat) : HealthStatus :=
  if total = 0 then .unknown
  else if 4 * total ≤ 5 * successful then .healthy
  else if total ≤ 2 * successful then .degraded
  else .unhealthy

/-- **C4**: for every sequence of recorded fetch outcomes,
`get_health_status()` returns `unknown` iff no feeds were recorded, and
otherwise classifies r = successful_feeds/total_feeds as `healthy`
(r ≥ 0.8), `degraded` (0.5 ≤ r < 0.8) or `unhealthy` (r < 0.5), where
total_feeds is the number of recorded outcomes and successful_feeds the
number of successful ones. -/
theorem c4_health_status_classification (now : PyDateTime)
    (rs : List FetchResult) :
    getHealthStatus (rs.foldl (recordFetchResult now) initMetrics) =
      healthStatusSpec rs.length (rs.countP (·.success)) := by
  obtain ⟨ht, hs⟩ := recordFold_counts now rs initMetrics
  unfold getHealthStatus healthStatusSpec
  rw [ht, hs]
  simp only [initMetrics, Nat.zero_add]
  by_cases h0 : rs.length = 0
  · simp [h0]
  · have hpos : 0 < (rs.length : ℚ) := by
      exact_mod_cast Nat.pos_of_ne_zero h0
    have h1 : ((4 : ℚ) / 5 ≤ (rs.countP (·.success) : ℚ) / (rs.length : ℚ)) ↔
        4 * rs.length ≤ 5 * rs.countP (·.success) := by
      rw [div_le_div_iff₀ (by norm_num) hpos]
      rw [show (4 : ℚ) * (rs.length : ℚ) = ((4 * rs.length : ℕ) : ℚ) by
            push_cast; ring,
          show (rs.countP (·.success) : ℚ) * 5
              = ((5 * rs.countP (·.success) : ℕ) : ℚ) by push_cast; ring]
      exact Nat.cast_le
    have h2 : ((1 : ℚ) / 2 ≤ (rs.countP (·.success) : ℚ) / (rs.length : ℚ)) ↔
        rs.length ≤ 2 * rs.countP (·.success) := by
      rw [div_le_div_iff₀ (by norm_num) hpos]
      rw [show (1 : ℚ) * (rs.length : ℚ) = ((rs.length : ℕ) : ℚ) by rw [one_mul],
          show (rs.countP (·.success) : ℚ) * 2
              = ((2 * rs.countP (·.success) : ℕ) : ℚ) by push_cast; ring]
      exact Nat.cast_le
    simp only [h0, if_false, h1, h2]

/-- `sanitize`'s per-field cleaning equals collapse-after-strip on every
input (including the falsy empty string). -/
theorem sanitizeField_eq (s : PyStr) :
    sanitizeField s = collapseWs (pyStrip s) := by
  unfold sanitizeField
  split
  · rename_i h
    subst h
    decide
  · rfl

/-- **C6**: for every news draft, the sanitized content equals the
whitespace-collapsed content truncated to its first 10000 characters plus a
trailing `'...'` exactly when the collapsed content exceeds 10000
characters, and is the collapsed content unchanged otherwise; in the
truncated case the result is exactly 10003 characters.  (`sanitize` is a
total function, so it never fails.) -/
theorem c6_content_truncation (nd : NewsData) :
    ((sanitizeNewsData nd).content =
      if 10000 < (collapseWs (pyStrip nd.content)).length then
        (collapseWs (pyStrip nd.content)).take 10000 ++ "...".toList
      else collapseWs (pyStrip nd.content)) ∧
    ((sanitizeNewsData nd).content.length =
      if 10000 < (collapseWs (pyStrip nd.content)).length then 10003
      else (collapseWs (pyStrip nd.content)).length) := by
  set cw := collapseWs (pyStrip nd.content) with hcw
  have hfe : sanitizeField nd.content = cw := sanitizeField_eq nd.content
  have hiff : (cw ≠ [] ∧ 10000 < cw.length) ↔ 10000 < cw.length := by
    constructor
    · exact And.right
    · intro h
      refine ⟨?_, h⟩
      intro hnil
      rw [hnil] at h
      simp at h
  have hmain : (sanitizeNewsData nd).content =
      if 10000 < cw.length then cw.take 10000 ++ "...".toList else cw := by
    simp only [sanitizeNewsData, hfe]
    rw [if_congr hiff rfl rfl]
    by_cases hlen : 10000 < cw.length
    · rw [if_pos hlen, if_pos hlen]
    · rw [if_neg hlen, if_neg hlen]
  refine ⟨hmain, ?_⟩
  rw [hmain]
  by_cases hlen : 10000 < cw.length
  · rw [if_pos hlen, if_pos hlen, List.length_append, List.length_take,
      Nat.min_eq_left (Nat.le_of_lt hlen)]
    rfl
  · rw [if_neg hlen, if_neg hlen]

/-- **C8**: `is_duplicate` returns `true` for a missing (`None`) or empty
URL; for a non-empty URL with working storage it performs an existence
lookup of the *normalized* URL by exact match against the persisted
articles; and when the storage lookup raises it returns `false`
(fail-open). -/
theorem c8_is_duplicate_contract (db : Db) :
    isDuplicate db none = true ∧
    isDuplicate db (some []) = true ∧
    (∀ u : PyStr, u ≠ [] → db.broken = false →
      isDuplicate db (some u) =
        (db.news.find? (fun r => r.url = normalizeUrl u)).isSome) ∧
    (∀ u : PyStr, u ≠ [] → db.broken = true →
      isDuplicate db (some u) = false) := by
  refine ⟨rfl, rfl, ?_, ?_⟩
  · intro u hu hb
    simp [isDuplicate, hu, checkDatabaseDuplicate, Db.fetchNewsIdByUrl, hb]
  · intro u hu hb
    simp [isDuplicate, hu, checkDatabaseDuplicate, Db.fetchNewsIdByUrl, hb]

/-- A one-article store used by the C8 witness. -/
def dbC8 : Db :=
  ⟨[⟨1, "https://x.com/a".toList, "t".toList, [], [], [],
      ⟨2024, 1, 1, 0, 0, 0⟩, none⟩],
   [], [], 2, false⟩

/-- Witness for C8 at a concrete store and URL: a stored canonical URL is
reported duplicate, and the same lookup on broken storage fails open. -/
theorem c8_is_duplicate_contract_witness :
    isDuplicate dbC8 (some ("https://x.com/a".toList)) = true ∧
    isDuplicate { dbC8 with broken := true }
      (some ("https://x.com/a".toList)) = false := by
  constructor
  · rw [(c8_is_duplicate_contract dbC8).2.2.1 ("https://x.com/a".toList)
      (by decide) rfl]
    decide
  · exact (c8_is_duplicate_contract _).2.2.2 _ (by decide) rfl

/-- The validator accepts any draft with a valid URL, a non-empty title
and the current time as publication time. -/
theorem validateNewsData_eq_nil (now : PyDateTime) (nd : NewsData)
    (hnow : now.Valid) (hpub : nd.publishedAt = now)
    (hvalid : isValidUrlOpt nd.url = true) (htitle : nd.title ≠ []) :
    validateNewsData now nd = [] := by
  have hurl : ¬ (nd.url = none ∨ nd.url = some []) := by
    rintro (h | h) <;> rw [h] at hvalid
    · exact absurd hvalid (by decide)
    · exact absurd hvalid (by decide)
  have hfut : ¬ ((addOneDay now).key < nd.publishedAt.key) := by
    rw [hpub]
    have := key_lt_key_addOneDay now hnow
    omega
  unfold validateNewsData
  rw [if_neg hurl, if_neg (by simpa using htitle), hvalid,
    if_neg (by simp), if_neg hfut]
  rfl

/-- **C9**: for every feed entry, the standardizer probes the parsed
`published`, `updated`, `created` fields in that order, using the first one
that is present and parsable; when none is, the current processing time is
the publication timestamp and the validator does not reject the (otherwise
valid) entry — in particular its only date check, the more-than-one-day-in-
the-future guard, cannot fire on the fallback. -/
theorem c9_published_date_fallback (now : PyDateTime) (e : FeedEntry)
    (hnow : now.Valid) :
    (∀ d, tryDateField e.publishedParsed = some d →
      extractPublishedDate now e = d) ∧
    (tryDateField e.publishedParsed = none →
      ∀ d, tryDateField e.updatedParsed = some d →
        extractPublishedDate now e = d) ∧
    (tryDateField e.publishedParsed = none →
      tryDateField e.updatedParsed = none →
      ∀ d, tryDateField e.createdParsed = some d →
        extractPublishedDate now e = d) ∧
    (tryDateField e.publishedParsed = none →
      tryDateField e.updatedParsed = none →
      tryDateField e.createdParsed = none →
      extractPublishedDate now e = now ∧
      ∀ nd : NewsData, nd.publishedAt = now → isValidUrlOpt nd.url = true →
        nd.title ≠ [] → validateNewsData now nd = []) := by
  refine ⟨?_, ?_, ?_, ?_⟩
  · intro d hd
    unfold extractPublishedDate
    rw [hd]
  · intro h1 d hd
    unfold extractPublishedDate
    rw [h1, hd]
  · intro h1 h2 d hd
    unfold extractPublishedDate
    rw [h1, h2, hd]
  · intro h1 h2 h3
    refine ⟨by unfold extractPublishedDate; rw [h1, h2, h3], ?_⟩
    intro nd hpub hvalid htitle
    exact validateNewsData_eq_nil now nd hnow hpub hvalid htitle

/-- The C9 witness entry: no timestamp field at all. -/
def entryNoDate : FeedEntry :=
  ⟨some "T".toList, some "S".toList, none, none, none, none, none,
   some "https://x.com/a".toList, [], []⟩

/-- Witness for C9: a concrete entry with no parsable date gets the
processing time. -/
theorem c9_published_date_fallback_witness :
    extractPublishedDate ⟨2024, 6, 1, 12, 0, 0⟩ entryNoDate =
      ⟨2024, 6, 1, 12, 0, 0⟩ :=
  ((c9_published_date_fallback ⟨2024, 6, 1, 12, 0, 0⟩ entryNoDate
    (by decide)).2.2.2 rfl rfl rfl).1

/-! ### C1 / C2: the retry decorator and failure bookkeeping -/

/-- A fetch endpoint that raises `RSSFetchError` on every attempt (the
HTTP-500 scenario: `raise_for_status` fails each time). -/
def alwaysHttp500 : Nat → Except RssError (List FeedEntry) :=
  fun _ => .error (.fetchError "HTTP请求失败: 500 Server Error".toList)

/-- Concrete source for the C1/C2 evaluations. -/
def srcA : RSSSource := ⟨1, "feedA".toList, "https://h.example/rss".toList⟩

/-- Concrete fetch time. -/
def nowA : PyDateTime := ⟨2024, 6, 1, 12, 0, 0⟩

/-- Store with one registered source whose `last_fetched` is an older
date. -/
def dbA : Db := ⟨[], [⟨1, some ⟨2024, 1, 1, 0, 0, 0⟩⟩], [], 1, false⟩

/-- Pipeline state for the C1/C2 evaluations. -/
def stA : PipelineState := ⟨dbA, initMetrics⟩

/-- **C1** (the claimed retry cannot happen): the decorator alone, applied
to a body that raises `RSSFetchError` on every attempt, would make 4
attempts with sleeps `[2, 4, 8]` — the policy the claim describes; but the
catch-all `except` inside `_fetch_single_feed` converts the `RSSFetchError`
into a normal `success=False` return before the decorator can see it, so
the decorated fetch performs exactly one attempt, never sleeps, and records
the terminal failure (log row and failure summary) immediately. -/
theorem c1_retry_never_triggered_on_fetch_error :
    ((retryOnFailure 3 2 2
        (fun _ (s : Unit) =>
          ((Except.error (RssError.fetchError "HTTP请求失败: 500 Server Error".toList) :
            Except RssError Unit), s)) ()).attemptsMade = 4 ∧
      (retryOnFailure 3 2 2
        (fun _ (s : Unit) =>
          ((Except.error (RssError.fetchError "HTTP请求失败: 500 Server Error".toList) :
            Except RssError Unit), s)) ()).sleeps = [2, 4, 8]) ∧
    (fetchSingleFeed alwaysHttp500 srcA nowA stA).attemptsMade = 1 ∧
    (fetchSingleFeed alwaysHttp500 srcA nowA stA).sleeps = [] ∧
    (fetchSingleFeed alwaysHttp500 srcA nowA stA).result.toOption =
      some ⟨"feedA".toList, false, 0, 0,
        some "HTTP请求失败: 500 Server Error".toList⟩ ∧
    (fetchSingleFeed alwaysHttp500 srcA nowA stA).state.db.fetchLogs =
      [⟨1, false, 0, some "HTTP请求失败: 500 Server Error".toList, nowA⟩] :=
  ⟨⟨rfl, rfl⟩, rfl, rfl, rfl, rfl⟩

/-- **C2** counterexample: after a failed fetch, the source's
`last_fetched` has been rewritten from its old value to the fetch time —
the claim says it is left unchanged. -/
theorem c2_last_fetched_updated_on_failure_cex :
    (fetchSingleFeed alwaysHttp500 srcA nowA stA).state.db.lastFetchedOf 1 =
      some (some nowA) ∧
    dbA.lastFetchedOf 1 = some (some ⟨2024, 1, 1, 0, 0, 0⟩) ∧
    nowA ≠ ⟨2024, 1, 1, 0, 0, 0⟩ :=
  ⟨rfl, rfl, by decide⟩

/-- Stamping `last_fetched = now` on the rows with a given id commutes with
looking that id up. -/
theorem find?_stamp (sid : Nat) (now : PyDateTime) :
    ∀ l : List RssSourceRow,
      ((l.map (fun s => if s.id = sid then { s with lastFetched := some now }
          else s)).find? (fun s => s.id = sid)).map (·.lastFetched) =
        ((l.find? (fun s => s.id = sid)).map (·.lastFetched)).map
          (fun _ => some now)
  | [] => rfl
  | s :: rest => by
    rw [List.map_cons]
    by_cases hs : s.id = sid
    · rw [if_pos hs]
      rw [List.find?_cons_of_pos _ (by simpa using hs),
        List.find?_cons_of_pos _ (by simpa using hs)]
      rfl
    · rw [if_neg hs]
      rw [List.find?_cons_of_neg _ (by simpa using hs),
        List.find?_cons_of_neg _ (by simpa using hs)]
      exact find?_stamp sid now rest

/-- `last_fetched` after `_update_fetch_status` on working storage: the row
with the target id is stamped to `now`. -/
theorem lastFetchedOf_updateFetchStatus (db : Db) (sid : Nat)
    (success : Bool) (items : Nat) (err : Option PyStr) (now : PyDateTime)
    (hb : db.broken = false) :
    (updateFetchStatus db sid success items err now).lastFetchedOf sid =
      (db.lastFetchedOf sid).map (fun _ => some now) := by
  unfold updateFetchStatus Db.lastFetchedOf
  rw [hb]
  simp only [Bool.false_eq_true, if_false]
  exact find?_stamp sid now db.sources

/-- **C2** (amended): when the fetch of a source raises, the executor
appends a FetchLogEntry with `success=false` carrying the error message and
returns a failure summary — but, contrary to the claim, it also stamps the
source's `last_fetched` to the fetch time, exactly as a success would. -/
theorem c2_failure_logging_amended
    (oracle : Nat → Except RssError (List FeedEntry)) (src : RSSSource)
    (now : PyDateTime) (db : Db) (m : RSSMetrics) (err : RssError)
    (hor : oracle 0 = .error err) (hb : db.broken = false) :
    (fetchSingleFeed oracle src now ⟨db, m⟩).result.toOption =
      some ⟨src.name, false, 0, 0, some err.msg⟩ ∧
    (fetchSingleFeed oracle src now ⟨db, m⟩).state.db.fetchLogs =
      db.fetchLogs ++ [⟨src.id, false, 0, some err.msg, now⟩] ∧
    (fetchSingleFeed oracle src now ⟨db, m⟩).state.db.lastFetchedOf src.id =
      (db.lastFetchedOf src.id).map (fun _ => some now) := by
  have hbody : fetchSingleFeedBody oracle src now 0 ⟨db, m⟩ =
      (⟨src.name, false, 0, 0, some err.msg⟩,
       ⟨updateFetchStatus db src.id false 0 (some err.msg) now,
        recordFetchResult now m ⟨src.name, false, 0, 0, some err.msg⟩⟩) := by
    unfold fetchSingleFeedBody
    rw [hor]
  have hrun : fetchSingleFeed oracle src now ⟨db, m⟩ =
      ⟨.ok ⟨src.name, false, 0, 0, some err.msg⟩,
       ⟨updateFetchStatus db src.id false 0 (some err.msg) now,
        recordFetchResult now m ⟨src.name, false, 0, 0, some err.msg⟩⟩,
       1, []⟩ := by
    unfold fetchSingleFeed retryOnFailure retryGo
    rw [hbody]
  refine ⟨?_, ?_, ?_⟩
  · rw [hrun]
    rfl
  · rw [hrun]
    show (updateFetchStatus db src.id false 0 (some err.msg) now).fetchLogs = _
    unfold updateFetchStatus
    rw [hb]
    simp only [Bool.false_eq_true, if_false]
  · rw [hrun]
    exact lastFetchedOf_updateFetchStatus db src.id false 0 (some err.msg)
      now hb

/-- Witness for the amended C2 at the concrete failing source: the failure
log row is appended behind the existing (empty) log. -/
theorem c2_failure_logging_amended_witness :
    (fetchSingleFeed alwaysHttp500 srcA nowA ⟨dbA, initMetrics⟩).state.db.fetchLogs =
      dbA.fetchLogs ++
        [⟨1, false, 0, some "HTTP请求失败: 500 Server Error".toList, nowA⟩] :=
  (c2_failure_logging_amended alwaysHttp500 srcA nowA dbA initMetrics
    (RssError.fetchError "HTTP请求失败: 500 Server Error".toList) rfl rfl).2.1

/-! ### C7: per-entry isolation and the new-item count -/

/-- Unfolding of one loop iteration of `_process_feed_entries`. -/
theorem processFeedEntries_cons (now : PyDateTime) (src : RSSSource)
    (db : Db) (e : FeedEntry) (rest : List FeedEntry) :
    processFeedEntries now src db (e :: rest) =
      ((if (processEntry now src db e).1 then 1 else 0) +
        (processFeedEntries now src (processEntry now src db e).2 rest).1,
       (processFeedEntries now src (processEntry now src db e).2 rest).2) :=
  rfl

/-- `_save_news` either reports no id and leaves the store untouched (NULL
url, broken storage, or ignored duplicate insert) or reports an id and has
appended exactly one news row. -/
theorem saveNews_cases (db : Db) (nd : NewsData) :
    ((saveNews db nd).1 = none ∧ (saveNews db nd).2 = db) ∨
    ((saveNews db nd).1 ≠ none ∧
      (saveNews db nd).2.news.length = db.news.length + 1) := by
  cases hu : nd.url with
  | none =>
    have heq : saveNews db nd = (none, db) := by simp only [saveNews, hu]
    rw [heq]
    exact Or.inl ⟨rfl, rfl⟩
  | some u =>
    simp only [saveNews, hu]
    by_cases hb : db.broken = true
    · rw [if_pos hb]
      exact Or.inl ⟨rfl, rfl⟩
    · rw [if_neg hb]
      by_cases hdup : db.news.any (fun r => r.url = u) = true
      · rw [if_pos hdup]
        exact Or.inl ⟨rfl, rfl⟩
      · rw [if_neg hdup]
        refine Or.inr ⟨?_, by simp⟩
        have hnone : db.news.find? (fun r => decide (r.url = u)) = none := by
          rw [List.find?_eq_none]
          intro x hx hxp
          exact hdup (List.any_eq_true.mpr ⟨x, hx, hxp⟩)
        simp only [List.find?_append, hnone, Option.none_or]
        rw [List.find?_cons_of_pos _ (by simp)]
        simp

/-- A skipped entry (any failure path of the loop body) leaves the store
untouched. -/
theorem processEntry_false_db (now : PyDateTime) (src : RSSSource) (db : Db)
    (e : FeedEntry) (h : (processEntry now src db e).1 = false) :
    (processEntry now src db e).2 = db := by
  cases hs : standardizeNewsEntry now e src with
  | error u => simp only [processEntry, hs]
  | ok nd0 =>
    simp only [processEntry, hs] at h ⊢
    by_cases hv : validateNewsData now nd0 ≠ []
    · rw [if_pos hv]
    · rw [if_neg hv] at h ⊢
      by_cases hdup : isDuplicate db (sanitizeNewsData nd0).url = true
      · rw [if_pos hdup]
      · rw [if_neg hdup] at h ⊢
        rcases saveNews_cases db (sanitizeNewsData nd0) with ⟨h1, h2⟩ | ⟨h1, h2⟩
        · cases hsv : saveNews db (sanitizeNewsData nd0) with
          | mk res db2 =>
            rw [hsv] at h1 h2
            have h1' : res = none := h1
            have h2' : db2 = db := h2
            rw [h1']
            exact h2'
        · cases hsv : saveNews db (sanitizeNewsData nd0) with
          | mk res db2 =>
            rw [hsv] at h1
            have h1' : res ≠ none := h1
            cases res with
            | none => exact absurd rfl h1'
            | some i =>
              rw [hsv] at h
              exact Bool.noConfusion h

/-- A counted entry has appended exactly one news row. -/
theorem processEntry_true_len (now : PyDateTime) (src : RSSSource) (db : Db)
    (e : FeedEntry) (h : (processEntry now src db e).1 = true) :
    (processEntry now src db e).2.news.length = db.news.length + 1 := by
  cases hs : standardizeNewsEntry now e src with
  | error u =>
    simp only [processEntry, hs] at h
    simp at h
  | ok nd0 =>
    simp only [processEntry, hs] at h ⊢
    by_cases hv : validateNewsData now nd0 ≠ []
    · rw [if_pos hv] at h
      simp at h
    · rw [if_neg hv] at h ⊢
      by_cases hdup : isDuplicate db (sanitizeNewsData nd0).url = true
      · rw [if_pos hdup] at h
        simp at h
      · rw [if_neg hdup] at h ⊢
        rcases saveNews_cases db (sanitizeNewsData nd0) with ⟨h1, h2⟩ | ⟨h1, h2⟩
        · cases hsv : saveNews db (sanitizeNewsData nd0) with
          | mk res db2 =>
            rw [hsv] at h h1
            have h1' : res = none := h1
            rw [h1'] at h
            exact Bool.noConfusion h
        · cases hsv : saveNews db (sanitizeNewsData nd0) with
          | mk res db2 =>
            rw [hsv] at h1 h2
            have h1' : res ≠ none := h1
            cases res with
            | none => exact absurd rfl h1'
            | some i => exact h2

/-- **C7**: entries are processed independently — a failure or rejection of
one entry (standardize exception, validation error, duplicate, or failed
persist) skips exactly that entry, leaving the store untouched and every
later entry still processed; and the per-source new-item count equals
exactly the number of newly persisted article rows. -/
theorem c7_entry_isolation_and_count (now : PyDateTime) (src : RSSSource) :
    (∀ (db : Db) (e : FeedEntry) (rest : List FeedEntry),
      (processEntry now src db e).1 = false →
      processFeedEntries now src db (e :: rest) =
        processFeedEntries now src db rest) ∧
    (∀ (db : Db) (es : List FeedEntry),
      (processFeedEntries now src db es).2.news.length =
        db.news.length + (processFeedEntries now src db es).1) := by
  constructor
  · intro db e rest h
    have hdb := processEntry_false_db now src db e h
    rw [processFeedEntries_cons, h, hdb]
    simp
  · intro db es
    induction es generalizing db with
    | nil => simp [processFeedEntries]
    | cons e rest ih =>
      rw [processFeedEntries_cons]
      cases h : (processEntry now src db e).1 with
      | false =>
        have hdb := processEntry_false_db now src db e h
        rw [hdb]
        simp only [Bool.false_eq_true, if_false, Nat.zero_add]
        exact ih db
      | true =>
        have hlen := processEntry_true_len now src db e h
        simp only [if_true]
        show (processFeedEntries now src (processEntry now src db e).2
            rest).2.news.length = _
        rw [ih (processEntry now src db e).2, hlen]
        omega

/-- Entry whose `link` attribute is missing: `_standardize_news_entry`
raises `AttributeError` on it. -/
def entryNoLink : FeedEntry :=
  ⟨some "T".toList, some "S".toList, none, none, none, none, none, none,
   [], []⟩

/-- A normal absolute-link entry. -/
def entryGood : FeedEntry :=
  ⟨some "T".toList, some "S".toList, none, none, none, none, none,
   some "https://x.com/a".toList, [], []⟩

/-- An empty working store. -/
def dbEmpty : Db := ⟨[], [], [], 1, false⟩

/-- Witness for C7: the raising entry is skipped (its presence does not
change the batch outcome) and the count equals the rows added. -/
theorem c7_entry_isolation_and_count_witness :
    processFeedEntries nowA srcA dbEmpty [entryNoLink, entryGood] =
      processFeedEntries nowA srcA dbEmpty [entryGood] ∧
    (processFeedEntries nowA srcA dbEmpty [entryNoLink, entryGood]).2.news.length =
      dbEmpty.news.length +
        (processFeedEntries nowA srcA dbEmpty [entryNoLink, entryGood]).1 :=
  ⟨(c7_entry_isolation_and_count nowA srcA).1 dbEmpty entryNoLink [entryGood]
      (by decide),
   (c7_entry_isolation_and_count nowA srcA).2 dbEmpty [entryNoLink, entryGood]⟩

/-! ### C10: the rate limiter's sliding-window bound -/

/-- Everything surviving the eviction step of a sorted deque lies strictly
inside the window. -/
theorem mem_dropWhile_gt (x : ℚ) :
    ∀ l : List ℚ, l.Pairwise (· ≤ ·) →
      ∀ t ∈ l.dropWhile (fun v => decide (v ≤ x)), x < t
  | [], _, t, ht => by simp at ht
  | a :: l, hp, t, ht => by
    by_cases ha : a ≤ x
    · rw [List.dropWhile_cons_of_pos (by simpa using ha)] at ht
      exact mem_dropWhile_gt x l (List.Pairwise.of_cons hp) t ht
    · rw [List.dropWhile_cons_of_neg (by simpa using ha)] at ht
      rcases List.mem_cons.mp ht with rfl | htl
      · exact lt_of_not_le ha
      · exact lt_of_lt_of_le (lt_of_not_le ha)
          ((List.pairwise_cons.mp hp).1 t htl)

/-- Fuel-indexed correctness of `acquire`: under the sequential-use
invariants (sorted deque, all timestamps at or before the clock) and with
fuel exceeding the evicted deque's length, the call returns normally with a
deque of at most `max_requests` timestamps, all inside the trailing window
ending at the (possibly later) return time. -/
theorem acquireGo_spec (maxR : Nat) (win : ℚ) (hm : 1 ≤ maxR) (hw : 0 < win) :
    ∀ (fuel : Nat) (reqs : List ℚ) (now : ℚ),
      reqs.Pairwise (· ≤ ·) → (∀ t ∈ reqs, t ≤ now) →
      (reqs.dropWhile (fun t => decide (t ≤ now - win))).length < fuel →
      ∃ (reqs' : List ℚ) (now' : ℚ),
        acquireGo maxR win fuel reqs now = some (.out reqs' now') ∧
        reqs'.length ≤ maxR ∧ reqs'.Pairwise (· ≤ ·) ∧
        (∀ t ∈ reqs', now' - win < t ∧ t ≤ now') ∧ now ≤ now' := by
  intro fuel
  induction fuel with
  | zero =>
    intro reqs now _ _ hf
    exact absurd hf (Nat.not_lt_zero _)
  | succ fuel ih =>
    intro reqs now hsort hle hf
    have hevsub : List.Sublist
        (reqs.dropWhile (fun t => decide (t ≤ now - win))) reqs :=
      List.dropWhile_sublist _
    have hevsort : (reqs.dropWhile (fun t => decide (t ≤ now - win))).Pairwise
        (· ≤ ·) := List.Pairwise.sublist hevsub hsort
    have hevle : ∀ t ∈ reqs.dropWhile (fun t => decide (t ≤ now - win)),
        t ≤ now := fun t ht => hle t (hevsub.subset ht)
    have hevgt : ∀ t ∈ reqs.dropWhile (fun t => decide (t ≤ now - win)),
        now - win < t := mem_dropWhile_gt (now - win) reqs hsort
    by_cases hcap :
        maxR ≤ (reqs.dropWhile (fun t => decide (t ≤ now - win))).length
    · have hne : reqs.dropWhile (fun t => decide (t ≤ now - win)) ≠ [] := by
        intro h
        rw [h] at hcap
        simp at hcap
        omega
      obtain ⟨r0, tl, hcons⟩ := List.exists_cons_of_ne_nil hne
      have hr0 : r0 ∈ reqs.dropWhile (fun t => decide (t ≤ now - win)) := by
        rw [hcons]
        exact List.mem_cons_self _ _
      have hsleep : 0 < r0 + win - now := by
        have := hevgt r0 hr0
        linarith
      have hstep : acquireGo maxR win (fuel + 1) reqs now =
          acquireGo maxR win fuel
            (reqs.dropWhile (fun t => decide (t ≤ now - win)))
            (now + (r0 + win - now)) := by
        simp only [acquireGo]
        rw [if_pos hcap]
        rw [show (reqs.dropWhile (fun t => decide (t ≤ now - win))).head?
            = some r0 by rw [hcons]; rfl]
        exact if_pos hsleep
      have hfuel :
          ((reqs.dropWhile (fun t => decide (t ≤ now - win))).dropWhile
            (fun t => decide (t ≤ (now + (r0 + win - now)) - win))).length
            < fuel := by
        rw [show now + (r0 + win - now) - win = r0 from by ring]
        rw [hcons, List.dropWhile_cons_of_pos (by simp)]
        have h1 := length_dropWhile_le (fun t => decide (t ≤ r0)) tl
        have h2 : (reqs.dropWhile (fun t => decide (t ≤ now - win))).length
            < fuel + 1 := hf
        rw [hcons] at h2
        simp only [List.length_cons] at h2
        omega
      obtain ⟨reqs', now', hgo, hb1, hb2, hb3, hb4⟩ :=
        ih (reqs.dropWhile (fun t => decide (t ≤ now - win)))
          (now + (r0 + win - now)) hevsort
          (fun t ht => by have := hevle t ht; linarith) hfuel
      refine ⟨reqs', now', ?_, hb1, hb2, hb3, ?_⟩
      · rw [hstep]
        exact hgo
      · linarith
    · refine ⟨reqs.dropWhile (fun t => decide (t ≤ now - win)) ++ [now],
        now, ?_, ?_, ?_, ?_, le_refl now⟩
      · simp only [acquireGo]
        rw [if_neg hcap]
      · rw [List.length_append]
        simp only [List.length_singleton]
        omega
      · rw [List.pairwise_append]
        refine ⟨hevsort, List.pairwise_singleton _ _, ?_⟩
        intro a ha b hb
        rw [List.mem_singleton] at hb
        subst hb
        exact hevle a ha
      · intro t ht
        rcases List.mem_append.mp ht with h | h
        · exact ⟨hevgt t h, hevle t h⟩
        · rw [List.mem_singleton] at h
          subst h
          exact ⟨by linarith, le_refl _⟩

/-- Sequential-run correctness: starting from any state satisfying the
invariants, every call in the sequence returns with at most `max_requests`
tracked timestamps, all inside the trailing window at its return time. -/
theorem runAcquires_spec (maxR : Nat) (win : ℚ) (hm : 1 ≤ maxR)
    (hw : 0 < win) :
    ∀ (ds : List ℚ) (reqs : List ℚ) (now : ℚ),
      reqs.Pairwise (· ≤ ·) → (∀ t ∈ reqs, t ≤ now) → (∀ d ∈ ds, 0 ≤ d) →
      ∃ tr, runAcquires maxR win reqs now ds = some tr ∧
        ∀ p ∈ tr, p.1.length ≤ maxR ∧ ∀ t ∈ p.1, p.2 - win < t ∧ t ≤ p.2
  | [], reqs, now, _, _, _ => ⟨[], rfl, by simp⟩
  | d :: ds, reqs, now, hsort, hle, hd => by
    have hd0 : 0 ≤ d := hd d (List.mem_cons_self _ _)
    have hle' : ∀ t ∈ reqs, t ≤ now + d := fun t ht =>
      le_trans (hle t ht) (by linarith)
    have hf : (reqs.dropWhile (fun t => decide (t ≤ (now + d) - win))).length
        < reqs.length + 1 :=
      Nat.lt_succ_of_le (length_dropWhile_le _ _)
    obtain ⟨reqs', now', hgo, hb1, hb2, hb3, hb4⟩ :=
      acquireGo_spec maxR win hm hw (reqs.length + 1) reqs (now + d) hsort
        hle' hf
    obtain ⟨tr, htr, hinv⟩ :=
      runAcquires_spec maxR win hm hw ds reqs' now' hb2
        (fun t ht => (hb3 t ht).2) (fun x hx => hd x (List.mem_cons_of_mem _ hx))
    refine ⟨(reqs', now') :: tr, ?_, ?_⟩
    · simp only [runAcquires]
      rw [show acquire maxR win reqs (now + d) = some (.out reqs' now')
        from hgo]
      show (runAcquires maxR win reqs' now' ds).map
        (fun tr => (reqs', now') :: tr) = _
      rw [htr]
      rfl
    · intro p hp
      rcases List.mem_cons.mp hp with rfl | hp'
      · exact ⟨hb1, hb3⟩
      · exact hinv p hp'

/-- **C10**: for every sequence of sequential `acquire()` calls on a
limiter with `max_requests ≥ 1` and a positive window (caller delays ≥ 0 —
a call cannot start before the previous one returned), every call returns,
and at each return at most `max_requests` recorded timestamps lie within
the trailing `time_window`. -/
theorem c10_rate_limiter_window_bound (maxR : Nat) (win : ℚ) (ds : List ℚ)
    (hm : 1 ≤ maxR) (hw : 0 < win) (hd : ∀ d ∈ ds, 0 ≤ d) :
    ∃ tr, runAcquires maxR win [] 0 ds = some tr ∧
      ∀ p ∈ tr,
        p.1.countP (fun t => decide (p.2 - win < t ∧ t ≤ p.2)) ≤ maxR := by
  obtain ⟨tr, htr, hinv⟩ :=
    runAcquires_spec maxR win hm hw ds [] 0 (by simp) (by simp) hd
  exact ⟨tr, htr, fun p hp =>
    le_trans (List.countP_le_length _) (hinv p hp).1⟩

/-- Witness for C10: two back-to-back calls on a one-per-second limiter. -/
theorem c10_rate_limiter_window_bound_witness :
    ∃ tr, runAcquires 1 1 [] 0 [0, 0] = some tr ∧
      ∀ p ∈ tr, p.1.countP (fun t => decide (p.2 - 1 < t ∧ t ≤ p.2)) ≤ 1 :=
  c10_rate_limiter_window_bound 1 1 [0, 0] (le_refl 1) (by norm_num)
    (by intro d hdm; fin_cases hdm <;> norm_num)

/-! ### C3 / C5: well-formed URLs and the normalizer's exact behaviour -/

/-- An always-safe character is none of the URL metacharacters. -/
theorem alwaysSafe_props {c : Char} (h : isAlwaysSafe c = true) :
    c ≠ '&' ∧ c ≠ '=' ∧ c ≠ '%' ∧ c ≠ '+' ∧ c ≠ '#' ∧ c ≠ '?' ∧ c ≠ ' ' ∧
      c ≠ ';' ∧ c ≠ '/' ∧ c ≠ '[' ∧ c ≠ ']' ∧ c ≠ ':' := by
  refine ⟨?_, ?_, ?_, ?_, ?_, ?_, ?_, ?_, ?_, ?_, ?_, ?_⟩ <;>
    (intro he; rw [he] at h; exact absurd h (by decide))

/-- A scheme character is not a colon. -/
theorem schemeChar_ne_colon {c : Char} (h : isSchemeChar c = true) :
    c ≠ ':' := by
  intro he
  rw [he] at h
  exact absurd h (by decide)

/-- `findIdxP?` misses when no character satisfies the predicate. -/
theorem findIdxP?_eq_none (p : Char → Bool) :
    ∀ l : PyStr, (∀ c ∈ l, p c = false) → findIdxP? p l = none
  | [], _ => rfl
  | a :: rest, h => by
    simp only [findIdxP?]
    rw [h a (by simp), findIdxP?_eq_none p rest (fun c hc => h c (by simp [hc]))]
    rfl

/-- `findIdxP?` on `a ++ x :: b` finds `x` at index `|a|` when nothing in
`a` satisfies the predicate and `x` does. -/
theorem findIdxP?_append (p : Char → Bool) (x : Char) (hx : p x = true) :
    ∀ (a b : PyStr), (∀ c ∈ a, p c = false) →
      findIdxP? p (a ++ x :: b) = some a.length
  | [], b, _ => by simp [findIdxP?, hx]
  | c :: a', b, h => by
    have hrec := findIdxP?_append p x hx a' b (fun y hy => h y (by simp [hy]))
    show findIdxP? p (c :: (a' ++ x :: b)) = some (a'.length + 1)
    simp only [findIdxP?]
    rw [h c (by simp), hrec]
    rfl

/-- `splitOnce` when the separator is absent. -/
theorem splitOnce_not_mem (c : Char) (l : PyStr) (h : ∀ y ∈ l, y ≠ c) :
    splitOnce c l = (l, none) := by
  unfold splitOnce findChar?
  rw [findIdxP?_eq_none _ l (fun y hy => by simpa using h y hy)]

/-- `splitOnce` at the first separator occurrence. -/
theorem splitOnce_append (c : Char) (a b : PyStr) (h : ∀ y ∈ a, y ≠ c) :
    splitOnce c (a ++ c :: b) = (a, some b) := by
  unfold splitOnce findChar?
  rw [findIdxP?_append (· = c) c (by simp) a b
    (fun y hy => by simpa using h y hy)]
  show (List.take a.length (a ++ c :: b),
    some (List.drop (a.length + 1) (a ++ c :: b))) = (a, some b)
  rw [List.take_left, show a.length + 1 = (a ++ [c]).length by simp,
    show a ++ c :: b = (a ++ [c]) ++ b by simp, List.drop_left]

/-- `str.lower` fixes a string of already-lowercase characters. -/
theorem pyLower_eq_self :
    ∀ s : PyStr, (∀ c ∈ s, toLowerChar c = c) → pyLower s = s
  | [], _ => rfl
  | c :: rest, h => by
    have hrec := pyLower_eq_self rest (fun y hy => h y (by simp [hy]))
    unfold pyLower at hrec ⊢
    simp only [List.map_cons]
    rw [h c (by simp), hrec]

/-- `headD` of an append with a non-empty left part. -/
theorem headD_append_left (s t : PyStr) (d : Char) (h : s ≠ []) :
    (s ++ t).headD d = s.headD d := by
  cases s with
  | nil => exact absurd rfl h
  | cons a s' => rfl

/-- The structured well-formed URLs over which the normalizer is
characterized. -/
structure UrlParts where
  scheme : PyStr
  host : PyStr
  path : PyStr
  query : List (PyStr × PyStr)
deriving Repr, DecidableEq

/-- The query-string serialization `k1=v1&k2=v2&...`. -/
def mkQueryStr (q : List (PyStr × PyStr)) : PyStr :=
  joinAmp (q.map (fun kv => kv.1 ++ '=' :: kv.2))

/-- `scheme://host/path?query` as a character list (no `?` when the query
is empty). -/
def buildUrl (u : UrlParts) : PyStr :=
  u.scheme ++ ':' :: '/' :: '/' ::
    (u.host ++ u.path ++
      (if u.query = [] then [] else '?' :: mkQueryStr u.query))

/-- A plain token: non-empty and made of `quote`-safe characters. -/
def tokenOk (t : PyStr) : Prop :=
  t ≠ [] ∧ ∀ c ∈ t, isAlwaysSafe c = true

instance (t : PyStr) : Decidable (tokenOk t) := by
  unfold tokenOk; infer_instance

/-- Well-formedness: a lowercase alphabetic scheme, a bracket-free host
without path/query/fragment delimiters, a `/`-rooted path free of `?#;`,
and a query of plain tokens with pairwise-distinct keys. -/
def UrlParts.WF (u : UrlParts) : Prop :=
  (u.scheme ≠ [] ∧ (u.scheme.headD ' ').isAlpha = true ∧
    ∀ c ∈ u.scheme, isSchemeChar c = true ∧ toLowerChar c = c) ∧
  (u.host ≠ [] ∧
    ∀ c ∈ u.host, c ≠ '/' ∧ c ≠ '?' ∧ c ≠ '#' ∧ c ≠ '[' ∧ c ≠ ']') ∧
  (u.path.headD ' ' = '/' ∧ u.path ≠ [] ∧
    ∀ c ∈ u.path, c ≠ '?' ∧ c ≠ '#' ∧ c ≠ ';') ∧
  ((∀ kv ∈ u.query, tokenOk kv.1 ∧ tokenOk kv.2) ∧
    (u.query.map (fun kv => kv.1)).Nodup)

instance (u : UrlParts) : Decidable u.WF := by
  unfold UrlParts.WF; infer_instance

/-- Characters of a serialized query are `=`, `&` or safe. -/
theorem mem_joinAmp :
    ∀ (pieces : List PyStr) (c : Char), c ∈ joinAmp pieces →
      c = '&' ∨ ∃ piece ∈ pieces, c ∈ piece
  | [], c, h => by simp [joinAmp] at h
  | [p], c, h => by
    simp only [joinAmp] at h
    exact Or.inr ⟨p, by simp, h⟩
  | p :: p2 :: rest, c, h => by
    simp only [joinAmp] at h
    rcases List.mem_append.mp h with h | h
    · exact Or.inr ⟨p, by simp, h⟩
    · rcases List.mem_cons.mp h with rfl | h
      · exact Or.inl rfl
      · rcases mem_joinAmp (p2 :: rest) c h with h | ⟨piece, hp, hc⟩
        · exact Or.inl h
        · exact Or.inr ⟨piece, List.mem_cons_of_mem _ hp, hc⟩

/-- Character classification of a well-formed serialized query. -/
theorem mem_mkQueryStr (q : List (PyStr × PyStr))
    (hq : ∀ kv ∈ q, tokenOk kv.1 ∧ tokenOk kv.2) :
    ∀ c ∈ mkQueryStr q, c = '=' ∨ c = '&' ∨ isAlwaysSafe c = true := by
  intro c hc
  rcases mem_joinAmp _ c hc with rfl | ⟨piece, hp, hcp⟩
  · exact Or.inr (Or.inl rfl)
  · rcases List.mem_map.mp hp with ⟨kv, hkv, rfl⟩
    rcases List.mem_append.mp hcp with h | h
    · exact Or.inr (Or.inr ((hq kv hkv).1.2 c h))
    · rcases List.mem_cons.mp h with rfl | h
      · exact Or.inl rfl
      · exact Or.inr (Or.inr ((hq kv hkv).2.2 c h))

/-- `_splitnetloc` on the body of a well-formed built URL. -/
theorem splitNetloc_buildUrl (host rest : PyStr)
    (hh : ∀ c ∈ host, c ≠ '/' ∧ c ≠ '?' ∧ c ≠ '#') :
    splitNetloc ('/' :: '/' :: (host ++ '/' :: rest)) =
      (host, '/' :: rest) := by
  unfold splitNetloc
  dsimp only [List.drop]
  rw [findIdxP?_append (fun c => c = '/' || c = '?' || c = '#') '/' (by simp)
    host rest (fun y hy => by
      obtain ⟨h1, h2, h3⟩ := hh y hy
      simp [h1, h2, h3])]
  show (List.take host.length (host ++ '/' :: rest),
    List.drop host.length (host ++ '/' :: rest)) = (host, '/' :: rest)
  rw [List.take_left, List.drop_left]

/-- `splitScheme` on a well-formed built URL. -/
theorem splitScheme_buildUrl (s r : PyStr) (hs1 : s ≠ [])
    (hs2 : (s.headD ' ').isAlpha = true)
    (hs3 : ∀ c ∈ s, isSchemeChar c = true ∧ toLowerChar c = c) :
    splitScheme (s ++ ':' :: r) = (s, r) := by
  unfold splitScheme findChar?
  rw [findIdxP?_append (· = ':') ':' (by simp) s r
    (fun y hy => by simpa using schemeChar_ne_colon (hs3 y hy).1)]
  show (if 0 < s.length ∧ ((s ++ ':' :: r).headD ' ').isAlpha = true ∧
      ((s ++ ':' :: r).take s.length).all isSchemeChar = true then
    (pyLower ((s ++ ':' :: r).take s.length), (s ++ ':' :: r).drop (s.length + 1))
    else ([], s ++ ':' :: r)) = (s, r)
  rw [if_pos ?hc]
  case hc =>
    refine ⟨List.length_pos.mpr hs1, ?_, ?_⟩
    · rw [headD_append_left s (':' :: r) ' ' hs1]
      exact hs2
    · rw [List.take_left]
      exact List.all_eq_true.mpr (fun c hc => (hs3 c hc).1)
  rw [List.take_left, pyLower_eq_self s (fun c hc => (hs3 c hc).2)]
  rw [show s.length + 1 = (s ++ [':']).length by simp,
    show s ++ ':' :: r = (s ++ [':']) ++ r by simp, List.drop_left]

/-- `urlsplit` recovers the components of a well-formed built URL. -/
theorem urlsplitE_buildUrl (u : UrlParts) (h : u.WF) :
    urlsplitE (buildUrl u) =
      .ok ⟨u.scheme, u.host, u.path, mkQueryStr u.query, []⟩ := by
  obtain ⟨⟨hs1, hs2, hs3⟩, ⟨hh1, hh2⟩, ⟨hp1, hp2, hp3⟩, hq1, hq2⟩ := h
  obtain ⟨pt, hpt⟩ : ∃ pt, u.path = '/' :: pt := by
    cases hp : u.path with
    | nil => exact absurd hp hp2
    | cons a t =>
      rw [hp] at hp1
      exact ⟨t, by rw [show a = '/' from hp1]⟩
  have hnoamp : ∀ c ∈ u.path ++
      (if u.query = [] then [] else '?' :: mkQueryStr u.query), c ≠ '#' := by
    intro c hc
    rcases List.mem_append.mp hc with hcp | hcq
    · exact (hp3 c hcp).2.1
    · by_cases hqe : u.query = []
      · rw [if_pos hqe] at hcq
        simp at hcq
      · rw [if_neg hqe] at hcq
        rcases List.mem_cons.mp hcq with rfl | hcq
        · decide
        · rcases mem_mkQueryStr u.query hq1 c hcq with rfl | rfl | hsafe
          · decide
          · decide
          · exact (alwaysSafe_props hsafe).2.2.2.2.1
  have hsplit : splitScheme (buildUrl u) = (u.scheme,
      '/' :: '/' :: (u.host ++ u.path ++
        (if u.query = [] then [] else '?' :: mkQueryStr u.query))) := by
    exact splitScheme_buildUrl u.scheme _ hs1 hs2 hs3
  have hnet : splitNetloc ('/' :: '/' :: (u.host ++ u.path ++
      (if u.query = [] then [] else '?' :: mkQueryStr u.query))) =
      (u.host, u.path ++
        (if u.query = [] then [] else '?' :: mkQueryStr u.query)) := by
    rw [show u.host ++ u.path ++
        (if u.query = [] then [] else '?' :: mkQueryStr u.query) =
        u.host ++ '/' :: (pt ++
          (if u.query = [] then [] else '?' :: mkQueryStr u.query)) by
      rw [hpt]; simp]
    rw [splitNetloc_buildUrl u.host _
      (fun c hc => ⟨(hh2 c hc).1, (hh2 c hc).2.1, (hh2 c hc).2.2.1⟩)]
    rw [hpt]
    simp
  unfold urlsplitE
  rw [hsplit]
  dsimp only [List.take]
  rw [if_pos rfl, hnet]
  dsimp only
  rw [if_neg ?hbr]
  case hbr =>
    rintro (⟨hin, _⟩ | ⟨hin, _⟩)
    · exact (hh2 '[' hin).2.2.2.1 rfl
    · exact (hh2 ']' hin).2.2.2.2 rfl
  rw [splitOnce_not_mem '#' _ hnoamp]
  by_cases hqe : u.query = []
  · rw [if_pos hqe, List.append_nil]
    dsimp only
    rw [splitOnce_not_mem '?' u.path (fun y hy => (hp3 y hy).1)]
    rw [hqe]
    rfl
  · rw [if_neg hqe]
    dsimp only
    rw [splitOnce_append '?' u.path (mkQueryStr u.query)
      (fun y hy => (hp3 y hy).1)]

/-- `unquote` fixes a string without `%`. -/
theorem unquoteChars_eq_self :
    ∀ s : PyStr, (∀ c ∈ s, c ≠ '%') → unquoteChars s = s
  | [], _ => rfl
  | c :: rest, h => by
    rw [unquoteChars.eq_def]
    dsimp only
    rw [if_neg (h c (by simp)),
      unquoteChars_eq_self rest (fun y hy => h y (by simp [hy]))]

/-- The `+ → space` pass fixes a string without `+`. -/
theorem map_plus_eq_self :
    ∀ s : PyStr, (∀ c ∈ s, c ≠ '+') →
      s.map (fun c => if c = '+' then ' ' else c) = s
  | [], _ => rfl
  | c :: rest, h => by
    simp only [List.map_cons]
    rw [if_neg (h c (by simp)),
      map_plus_eq_self rest (fun y hy => h y (by simp [hy]))]

/-- `unquote_plus` fixes a string without `%` or `+`. -/
theorem unquotePlus_eq_self (s : PyStr) (h : ∀ c ∈ s, c ≠ '%' ∧ c ≠ '+') :
    unquotePlus s = s := by
  unfold unquotePlus
  rw [map_plus_eq_self s (fun c hc => (h c hc).2),
    unquoteChars_eq_self s (fun c hc => (h c hc).1)]

/-- `quote` with no extra safe set fixes a string of safe characters. -/
theorem pyQuote_eq_self :
    ∀ s : PyStr, (∀ c ∈ s, isAlwaysSafe c = true) → pyQuote [] s = s
  | [], _ => rfl
  | c :: rest, h => by
    have hrec := pyQuote_eq_self rest (fun y hy => h y (by simp [hy]))
    unfold pyQuote at hrec ⊢
    simp only [List.flatMap_cons]
    rw [show quoteChar [] c = [c] by
      unfold quoteChar
      rw [if_pos (Or.inl (h c (by simp)))]]
    rw [hrec]
    rfl

/-- `quote_plus` fixes a safe token. -/
theorem quotePlus_eq_self (s : PyStr) (h : ∀ c ∈ s, isAlwaysSafe c = true) :
    quotePlus s = s := by
  unfold quotePlus
  rw [if_neg (fun hsp => absurd (h ' ' hsp) (by decide))]
  exact pyQuote_eq_self s h

/-- `str.split` undoes a separator-free string. -/
theorem pySplitChar_no_sep :
    ∀ p : PyStr, (∀ c ∈ p, c ≠ '&') → pySplitChar '&' p = [p]
  | [], _ => rfl
  | c :: rest, h => by
    simp only [pySplitChar]
    rw [if_neg (h c (by simp)),
      pySplitChar_no_sep rest (fun y hy => h y (by simp [hy]))]

/-- `str.split` on `p & r` with `p` separator-free. -/
theorem pySplitChar_append (p r : PyStr) (hp : ∀ c ∈ p, c ≠ '&') :
    pySplitChar '&' (p ++ '&' :: r) = p :: pySplitChar '&' r := by
  induction p with
  | nil =>
    simp [pySplitChar]
  | cons c p' ih =>
    simp only [List.cons_append, pySplitChar, List.append_eq]
    rw [if_neg (hp c (by simp)), ih (fun y hy => hp y (by simp [hy]))]

/-- `'&'.join` undoes `str.split('&')` on non-empty separator-free
pieces. -/
theorem pySplit_joinAmp :
    ∀ pieces : List PyStr, pieces ≠ [] →
      (∀ p ∈ pieces, ∀ c ∈ p, c ≠ '&') →
      pySplitChar '&' (joinAmp pieces) = pieces
  | [], hne, _ => absurd rfl hne
  | [p], _, h => by
    simp only [joinAmp]
    exact pySplitChar_no_sep p (h p (by simp))
  | p :: p2 :: rest, _, h => by
    simp only [joinAmp]
    rw [pySplitChar_append p _ (h p (by simp)),
      pySplit_joinAmp (p2 :: rest) (by simp)
        (fun x hx => h x (List.mem_cons_of_mem _ hx))]

/-- A serialized plain pair parses back to itself. -/
theorem parseQslPair_pair (k v : PyStr) (hk : tokenOk k) (hv : tokenOk v) :
    parseQslPair (k ++ '=' :: v) = some (k, v) := by
  unfold parseQslPair
  rw [if_neg (by simp)]
  rw [splitOnce_append '=' k v (fun y hy => (alwaysSafe_props (hk.2 y hy)).2.1)]
  dsimp only
  rw [if_neg hv.1]
  rw [unquotePlus_eq_self k (fun c hc =>
      ⟨(alwaysSafe_props (hk.2 c hc)).2.2.1,
       (alwaysSafe_props (hk.2 c hc)).2.2.2.1⟩),
    unquotePlus_eq_self v (fun c hc =>
      ⟨(alwaysSafe_props (hv.2 c hc)).2.2.1,
       (alwaysSafe_props (hv.2 c hc)).2.2.2.1⟩)]

/-- Pointwise parsing of serialized plain pairs. -/
theorem filterMap_pairs :
    ∀ q : List (PyStr × PyStr), (∀ kv ∈ q, tokenOk kv.1 ∧ tokenOk kv.2) →
      q.filterMap (fun kv => parseQslPair (kv.1 ++ '=' :: kv.2)) = q
  | [], _ => rfl
  | kv :: rest, h => by
    rw [List.filterMap_cons]
    rw [parseQslPair_pair kv.1 kv.2 (h kv (by simp)).1 (h kv (by simp)).2]
    rw [filterMap_pairs rest (fun x hx => h x (by simp [hx]))]

/-- `parse_qsl` inverts the serialization of plain pairs. -/
theorem parseQsl_mkQueryStr (q : List (PyStr × PyStr))
    (hq : ∀ kv ∈ q, tokenOk kv.1 ∧ tokenOk kv.2) :
    parseQsl (mkQueryStr q) = q := by
  cases hqe : q with
  | nil => rfl
  | cons kv0 rest0 =>
    rw [← hqe]
    unfold parseQsl mkQueryStr
    rw [pySplit_joinAmp (q.map fun kv => kv.1 ++ '=' :: kv.2)
      (by rw [hqe]; simp) ?hnoamp]
    case hnoamp =>
      intro p hp c hc
      rcases List.mem_map.mp hp with ⟨kv', hkv', rfl⟩
      rcases List.mem_append.mp hc with h | h
      · exact (alwaysSafe_props ((hq kv' hkv').1.2 c h)).1
      · rcases List.mem_cons.mp h with rfl | h
        · decide
        · exact (alwaysSafe_props ((hq kv' hkv').2.2 c h)).1
    rw [List.filterMap_map]
    exact filterMap_pairs q hq

/-- Dictionary insertion of a fresh key appends it. -/
theorem upsertQs_not_mem :
    ∀ (d : List (PyStr × List PyStr)) (k : PyStr) (v : PyStr),
      (∀ e ∈ d, e.1 ≠ k) → upsertQs d k v = d ++ [(k, [v])]
  | [], _, _, _ => rfl
  | (k', vs) :: rest, k, v, h => by
    unfold upsertQs
    rw [if_neg (h (k', vs) (by simp))]
    rw [upsertQs_not_mem rest k v (fun e he => h e (by simp [he]))]
    rfl

/-- The `parse_qs` grouping fold on pairwise-distinct keys appends each
pair as a singleton group, in order. -/
theorem foldl_upsert :
    ∀ (q : List (PyStr × PyStr)) (acc : List (PyStr × List PyStr)),
      (q.map (fun kv => kv.1)).Nodup →
      (∀ kv ∈ q, ∀ e ∈ acc, e.1 ≠ kv.1) →
      q.foldl (fun d kv => upsertQs d kv.1 kv.2) acc =
        acc ++ q.map (fun kv => (kv.1, [kv.2]))
  | [], acc, _, _ => by simp
  | kv :: rest, acc, hnd, hdisj => by
    have hnd' : kv.1 ∉ rest.map (fun kv => kv.1) ∧
        (rest.map (fun kv => kv.1)).Nodup :=
      List.nodup_cons.mp (by rw [List.map_cons] at hnd; exact hnd)
    rw [List.foldl_cons]
    rw [upsertQs_not_mem acc kv.1 kv.2 (fun e he => hdisj kv (by simp) e he)]
    rw [foldl_upsert rest (acc ++ [(kv.1, [kv.2])]) hnd'.2 ?hdisj']
    · simp
    case hdisj' =>
      intro kv' hkv' e he
      rcases List.mem_append.mp he with h | h
      · exact hdisj kv' (by simp [hkv']) e h
      · rw [List.mem_singleton] at h
        subst h
        intro heq
        have heq' : kv.1 = kv'.1 := heq
        exact hnd'.1 (by rw [heq']; exact List.mem_map.mpr ⟨kv', hkv', rfl⟩)

/-- `parse_qs` of a well-formed query string: singleton value groups in
original order. -/
theorem parseQs_mkQueryStr (q : List (PyStr × PyStr))
    (hq : ∀ kv ∈ q, tokenOk kv.1 ∧ tokenOk kv.2)
    (hnd : (q.map (fun kv => kv.1)).Nodup) :
    parseQs (mkQueryStr q) = q.map (fun kv => (kv.1, [kv.2])) := by
  unfold parseQs
  rw [parseQsl_mkQueryStr q hq]
  rw [foldl_upsert q [] hnd (fun kv _ e he => absurd he (List.not_mem_nil e))]
  simp

/-- `urlencode(..., doseq=True)` re-serializes the singleton groups of
plain pairs. -/
theorem urlencodeSeq_pairs :
    ∀ q : List (PyStr × PyStr), (∀ kv ∈ q, tokenOk kv.1 ∧ tokenOk kv.2) →
      urlencodeSeq (q.map (fun kv => (kv.1, [kv.2]))) = mkQueryStr q := by
  intro q hq
  unfold urlencodeSeq mkQueryStr
  congr 1
  induction q with
  | nil => rfl
  | cons kv rest ih =>
    simp only [List.map_cons, List.flatMap_cons, List.map_nil]
    rw [quotePlus_eq_self kv.1 (hq kv (by simp)).1.2,
      quotePlus_eq_self kv.2 (hq kv (by simp)).2.2]
    rw [ih (fun x hx => hq x (by simp [hx]))]
    rfl

/-- `urlunparse` rebuilds a well-formed component tuple. -/
theorem urlunparse_build (s hN p q' : PyStr) (hs : s ≠ []) (hh : hN ≠ [])
    (hp : ∃ pt, p = '/' :: pt) :
    urlunparse ⟨s, hN, p, [], q', []⟩ =
      s ++ ':' :: '/' :: '/' ::
        (hN ++ p ++ (if q' = [] then [] else '?' :: q')) := by
  obtain ⟨pt, rfl⟩ := hp
  by_cases hq : q' = []
  · subst hq
    unfold urlunparse urlunsplit
    simp [hs, hh]
  · unfold urlunparse urlunsplit
    simp [hs, hh, hq]

/-- Joining a non-empty first piece is non-empty. -/
theorem joinAmp_cons_ne_nil (p : PyStr) (ps : List PyStr) (hp : p ≠ []) :
    joinAmp (p :: ps) ≠ [] := by
  cases ps with
  | nil => simpa [joinAmp] using hp
  | cons p2 rest =>
    simp only [joinAmp]
    intro hcontra
    exact hp (List.append_eq_nil.mp hcontra).1

/-- A well-formed non-empty query serializes to a non-empty string. -/
theorem mkQueryStr_ne_nil (q : List (PyStr × PyStr)) (hne : q ≠ [])
    (hq : ∀ kv ∈ q, tokenOk kv.1 ∧ tokenOk kv.2) : mkQueryStr q ≠ [] := by
  cases q with
  | nil => exact absurd rfl hne
  | cons kv rest =>
    unfold mkQueryStr
    rw [List.map_cons]
    exact joinAmp_cons_ne_nil _ _
      (by simp [(hq kv (by simp)).1.1])

/-- `urlparse` recovers the components of a well-formed built URL (with no
parameters component, since the path holds no `;`). -/
theorem urlparseE_buildUrl (u : UrlParts) (h : u.WF) :
    urlparseE (buildUrl u) =
      .ok ⟨u.scheme, u.host, u.path, [], mkQueryStr u.query, []⟩ := by
  unfold urlparseE
  rw [urlsplitE_buildUrl u h]
  dsimp only
  rw [if_neg ?hsemi]
  case hsemi =>
    intro hmem
    exact ((h.2.2.1.2.2) ';' hmem).2.2 rfl

/-- **The normalizer's exact behaviour on well-formed URLs**: precisely the
denylisted query parameters vanish; scheme, host, path and the remaining
parameters survive in their original order, the `?` disappearing when no
parameter remains. -/
theorem normalizeUrl_buildUrl (u : UrlParts) (h : u.WF) :
    normalizeUrl (buildUrl u) =
      buildUrl { u with
        query := u.query.filter (fun kv => !isTrackingParam kv.1) } := by
  obtain ⟨⟨hs1, hs2, hs3⟩, ⟨hh1, hh2⟩, ⟨hp1, hp2, hp3⟩, hq1, hq2⟩ := h
  unfold normalizeUrl
  rw [urlparseE_buildUrl u
    ⟨⟨hs1, hs2, hs3⟩, ⟨hh1, hh2⟩, ⟨hp1, hp2, hp3⟩, hq1, hq2⟩]
  dsimp only
  rw [parseQs_mkQueryStr u.query hq1 hq2]
  rw [List.filter_map]
  rw [show ((fun (kv : PyStr × List PyStr) => !isTrackingParam kv.1) ∘
      (fun (kv : PyStr × PyStr) => (kv.1, [kv.2]))) =
      (fun (kv : PyStr × PyStr) => !isTrackingParam kv.1) from rfl]
  rw [urlencodeSeq_pairs (u.query.filter (fun kv => !isTrackingParam kv.1))
    (fun kv hkv => hq1 kv (List.mem_filter.mp hkv).1)]
  rw [urlunparse_build u.scheme u.host u.path
    (mkQueryStr (u.query.filter (fun kv => !isTrackingParam kv.1))) hs1 hh1
    ?hpath]
  case hpath =>
    cases hp : u.path with
    | nil => exact absurd hp hp2
    | cons a t =>
      rw [hp] at hp1
      exact ⟨t, by rw [show a = '/' from hp1]⟩
  unfold buildUrl
  dsimp only
  congr 1
  congr 1
  congr 1
  by_cases hfe : u.query.filter (fun kv => !isTrackingParam kv.1) = []
  · rw [if_pos hfe, if_pos (by rw [hfe]; rfl)]
  · rw [if_neg hfe, if_neg (mkQueryStr_ne_nil _ hfe
      (fun kv hkv => hq1 kv (List.mem_filter.mp hkv).1))]

/-- **C5** counterexample: in `https://x.com/a?a=&b=1` no parameter name is
on the denylist, yet the normalizer drops `a=` (Python's `parse_qs` skips
blank values), so the claim's "removes exactly the denylist ... preserving
all other query parameters" is false at this input. -/
theorem c5_normalize_drops_blank_param_cex :
    normalizeUrl "https://x.com/a?a=&b=1".toList =
      "https://x.com/a?b=1".toList ∧
    "https://x.com/a?b=1".toList ≠ "https://x.com/a?a=&b=1".toList :=
  ⟨by decide, by decide⟩

/-- **C5** (amended): on well-formed URLs — lowercase scheme, delimiter-free
host, `/`-rooted path, and query parameters with pairwise-distinct keys and
non-empty keys/values over unreserved characters — the normalizer removes
exactly the denylisted parameters while preserving scheme, host, path and
all remaining parameters in original order (the `?` disappears when none
remain); and whenever the URL parse raises, the input string is returned
unchanged (the function is total, so it never raises). -/
theorem c5_normalize_amended :
    (∀ u : UrlParts, u.WF →
      normalizeUrl (buildUrl u) =
        buildUrl { u with
          query := u.query.filter (fun kv => !isTrackingParam kv.1) }) ∧
    (∀ url : PyStr, urlparseE url = .error () → normalizeUrl url = url) := by
  constructor
  · exact normalizeUrl_buildUrl
  · intro url herr
    unfold normalizeUrl
    rw [herr]

/-- The C5/C3 witness URL: one denylisted and one ordinary parameter. -/
def upW : UrlParts :=
  ⟨"https".toList, "x.com".toList, "/a".toList,
   [("utm_source".toList, "y".toList), ("b".toList, "2".toList)]⟩

/-- Witness for the amended C5: the denylisted parameter goes, the plain
one stays, and a mismatched-bracket URL passes through unchanged. -/
theorem c5_normalize_amended_witness :
    normalizeUrl (buildUrl upW) =
      buildUrl { upW with
        query := upW.query.filter (fun kv => !isTrackingParam kv.1) } ∧
    normalizeUrl "http://[abc".toList = "http://[abc".toList :=
  ⟨c5_normalize_amended.1 upW (by decide),
   c5_normalize_amended.2 "http://[abc".toList rfl⟩

/-! #### The length argument separating a URL from its normalized form -/

/-- Length of a `&`-join of non-zero many pieces. -/
theorem joinAmp_length :
    ∀ l : List PyStr, l ≠ [] →
      (joinAmp l).length + 1 = (l.map List.length).sum + l.length
  | [], h => absurd rfl h
  | [p], _ => by simp [joinAmp]
  | p :: p2 :: rest, _ => by
    have ih := joinAmp_length (p2 :: rest) (by simp)
    simp only [joinAmp, List.map_cons, List.sum_cons, List.length_append,
      List.length_cons] at *
    omega

/-- Sublists of naturals have smaller sums. -/
theorem sum_le_of_sublist {l₁ l₂ : List Nat} (h : List.Sublist l₁ l₂) :
    l₁.sum ≤ l₂.sum := by
  induction h with
  | slnil => exact le_refl _
  | cons a h ih =>
    simp only [List.sum_cons]
    omega
  | cons₂ a h ih =>
    simp only [List.sum_cons]
    omega

/-- Strictly filtering a well-formed query strictly shortens its
serialization. -/
theorem mkQueryStr_filter_length_lt (q : List (PyStr × PyStr))
    (p : (PyStr × PyStr) → Bool)
    (hq : ∀ kv ∈ q, tokenOk kv.1 ∧ tokenOk kv.2)
    (hx : ∃ kv ∈ q, p kv = false) :
    (mkQueryStr (q.filter p)).length < (mkQueryStr q).length := by
  obtain ⟨kv0, hkv0, hkv0p⟩ := hx
  have hqne : q ≠ [] := by
    intro h
    rw [h] at hkv0
    simp at hkv0
  have hsub : List.Sublist (q.filter p) q := List.filter_sublist q
  have hneq : q.filter p ≠ q := by
    intro he
    have hmem : kv0 ∈ q.filter p := by rw [he]; exact hkv0
    have := (List.mem_filter.mp hmem).2
    rw [hkv0p] at this
    exact Bool.noConfusion this
  have hlen : (q.filter p).length < q.length := by
    rcases Nat.lt_or_ge (q.filter p).length q.length with h | h
    · exact h
    · exact absurd (hsub.eq_of_length (Nat.le_antisymm hsub.length_le h))
        hneq
  by_cases hfe : q.filter p = []
  · rw [hfe]
    have hqnn := mkQueryStr_ne_nil q hqne hq
    have hpos : 0 < (mkQueryStr q).length := List.length_pos.mpr hqnn
    simpa [mkQueryStr, joinAmp] using hpos
  · have h1 := joinAmp_length ((q.filter p).map (fun kv => kv.1 ++ '=' :: kv.2))
      (by simp [hfe])
    have h2 := joinAmp_length (q.map (fun kv => kv.1 ++ '=' :: kv.2))
      (by simp [hqne])
    have hsum : (((q.filter p).map (fun kv => kv.1 ++ '=' :: kv.2)).map
        List.length).sum ≤
        ((q.map (fun kv => kv.1 ++ '=' :: kv.2)).map List.length).sum :=
      sum_le_of_sublist ((hsub.map _).map _)
    unfold mkQueryStr
    have hl1 : ((q.filter p).map (fun kv => kv.1 ++ '=' :: kv.2)).length
        < (q.map (fun kv => kv.1 ++ '=' :: kv.2)).length := by
      simpa using hlen
    omega

/-- A URL holding a denylisted parameter differs from its normalized
form (the two strings have different lengths). -/
theorem buildUrl_filter_ne (u : UrlParts)
    (hq : ∀ kv ∈ u.query, tokenOk kv.1 ∧ tokenOk kv.2)
    (htrk : ∃ kv ∈ u.query, isTrackingParam kv.1 = true) :
    buildUrl { u with
      query := u.query.filter (fun kv => !isTrackingParam kv.1) } ≠
      buildUrl u := by
  intro he
  have hlen := congrArg List.length he
  obtain ⟨kv0, hkv0, hkv0t⟩ := htrk
  have hqne : u.query ≠ [] := by
    intro h
    rw [h] at hkv0
    simp at hkv0
  have hx : ∃ kv ∈ u.query, (!isTrackingParam kv.1) = false :=
    ⟨kv0, hkv0, by rw [hkv0t]; rfl⟩
  have hqlt := mkQueryStr_filter_length_lt u.query _ hq hx
  have hqnn := mkQueryStr_ne_nil u.query hqne hq
  have hqpos : 0 < (mkQueryStr u.query).length := List.length_pos.mpr hqnn
  unfold buildUrl at hlen
  simp only [List.length_append, List.length_cons] at hlen
  by_cases hfe : u.query.filter (fun kv => !isTrackingParam kv.1) = []
  · rw [if_pos hfe, if_neg hqne] at hlen
    simp only [List.length_cons, List.length_nil] at hlen
    omega
  · rw [if_neg hfe, if_neg hqne] at hlen
    simp only [List.length_cons] at hlen
    omega

/-! #### Running two tracking-variant entries through the pipeline -/

/-- A minimal feed entry with the given absolute link. -/
def entryFor (l : PyStr) : FeedEntry :=
  ⟨some "T".toList, some "S".toList, none, none, none, none, none, some l,
   [], []⟩

/-- The standardizer on `entryFor`. -/
theorem standardize_entryFor (now : PyDateTime) (src : RSSSource)
    (l : PyStr) :
    standardizeNewsEntry now (entryFor l) src =
      .ok ⟨buildAbsoluteUrl l src.url, "T".toList, "S".toList, "S".toList,
        src.name, now, none, src.id⟩ := rfl

/-- An `http(s)://` link passes through `_build_absolute_url`. -/
theorem buildAbsoluteUrl_abs (l base : PyStr)
    (h : "https://".toList <+: l ∨ "http://".toList <+: l) :
    buildAbsoluteUrl l base = some l := by
  have hne : l ≠ [] := by
    rcases h with ⟨t, ht⟩ | ⟨t, ht⟩ <;> (rw [← ht]; simp)
  unfold buildAbsoluteUrl
  rw [if_neg hne, if_pos ?hp]
  case hp =>
    rcases h with h | h
    · exact Or.inr (List.isPrefixOf_iff_prefix.mpr h)
    · exact Or.inl (List.isPrefixOf_iff_prefix.mpr h)

/-- `sanitize` never touches the URL field. -/
theorem sanitize_url (nd : NewsData) : (sanitizeNewsData nd).url = nd.url := by
  unfold sanitizeNewsData
  dsimp only
  split <;> rfl

/-- A built well-formed URL passes the validator's URL check. -/
theorem isValidUrlOpt_buildUrl (u : UrlParts) (h : u.WF) :
    isValidUrlOpt (some (buildUrl u)) = true := by
  unfold isValidUrlOpt
  dsimp only
  rw [urlparseE_buildUrl u h]
  dsimp only
  rw [List.isEmpty_eq_false.mpr h.1.1, List.isEmpty_eq_false.mpr h.2.1.1]
  rfl

/-- A built URL with an `https` scheme starts with `https://`. -/
theorem buildUrl_https_isPrefix (u : UrlParts)
    (hs : u.scheme = "https".toList) :
    "https://".toList <+: buildUrl u := by
  unfold buildUrl
  rw [hs]
  refine ⟨u.host ++ u.path ++
    (if u.query = [] then [] else '?' :: mkQueryStr u.query), ?_⟩
  rw [show "https://".toList = "https".toList ++ [':', '/', '/'] from rfl]
  simp

/-- `_save_news` inserting a fresh URL: the id comes back and exactly one
row is appended. -/
theorem saveNews_fresh (db : Db) (nd : NewsData) (u : PyStr)
    (hu : nd.url = some u) (hb : db.broken = false)
    (habs : ∀ r ∈ db.news, r.url ≠ u) :
    saveNews db nd =
      (some db.nextNewsId,
       { db with
         news := db.news ++ [⟨db.nextNewsId, u, nd.title, nd.summary,
           nd.content, nd.sourceName, nd.publishedAt, nd.imageUrl⟩],
         nextNewsId := db.nextNewsId + 1 }) := by
  simp only [saveNews, hu]
  rw [if_neg (by rw [hb]; simp)]
  rw [if_neg ?hany]
  case hany =>
    intro hc
    obtain ⟨x, hx, hxp⟩ := List.any_eq_true.mp hc
    exact habs x hx (by simpa using hxp)
  have hnone : db.news.find? (fun r => decide (r.url = u)) = none := by
    rw [List.find?_eq_none]
    intro x hx hxp
    exact habs x hx (by simpa using hxp)
  rw [List.find?_append, hnone, Option.none_or,
    List.find?_cons_of_pos _ (by simp)]
  rfl

/-- `is_duplicate` misses when no stored row matches the normalized
URL. -/
theorem isDuplicate_eq_false (db : Db) (u : PyStr) (hune : u ≠ [])
    (hb : db.broken = false)
    (habs : ∀ r ∈ db.news, r.url ≠ normalizeUrl u) :
    isDuplicate db (some u) = false := by
  unfold isDuplicate
  dsimp only
  rw [if_neg hune]
  unfold checkDatabaseDuplicate Db.fetchNewsIdByUrl
  rw [hb]
  simp only [Bool.false_eq_true, if_false]
  rw [List.find?_eq_none.mpr (fun x hx hxp => habs x hx (by simpa using hxp))]
  rfl

/-- One loop iteration on a fresh well-formed entry: counted and appended
as one new row. -/
theorem processEntry_fresh (now : PyDateTime) (src : RSSSource) (db : Db)
    (url : PyStr) (hnow : now.Valid) (hb : db.broken = false)
    (hpre : "https://".toList <+: url ∨ "http://".toList <+: url)
    (hvalid : isValidUrlOpt (some url) = true)
    (hnodup : ∀ r ∈ db.news, r.url ≠ normalizeUrl url)
    (hnourl : ∀ r ∈ db.news, r.url ≠ url) :
    processEntry now src db (entryFor url) =
      (true,
       { db with
         news := db.news ++ [⟨db.nextNewsId, url, "T".toList, "S".toList,
           "S".toList, src.name, now, none⟩],
         nextNewsId := db.nextNewsId + 1 }) := by
  have hurlne : url ≠ [] := by
    rcases hpre with ⟨t, ht⟩ | ⟨t, ht⟩ <;> (rw [← ht]; simp)
  have hstd := standardize_entryFor now src url
  rw [buildAbsoluteUrl_abs url src.url hpre] at hstd
  have hval : validateNewsData now
      ⟨some url, "T".toList, "S".toList, "S".toList, src.name, now, none,
        src.id⟩ = [] :=
    validateNewsData_eq_nil now
      ⟨some url, "T".toList, "S".toList, "S".toList, src.name, now, none,
        src.id⟩ hnow rfl hvalid (show ("T".toList : PyStr) ≠ [] by decide)
  have hsan : sanitizeNewsData
      ⟨some url, "T".toList, "S".toList, "S".toList, src.name, now, none,
        src.id⟩ =
      ⟨some url, "T".toList, "S".toList, "S".toList, src.name, now, none,
        src.id⟩ := by
    unfold sanitizeNewsData
    dsimp only
    rw [if_neg (by decide)]
    rfl
  unfold processEntry
  rw [hstd]
  dsimp only
  rw [if_neg (fun hne => hne hval)]
  rw [hsan]
  rw [if_neg (by rw [isDuplicate_eq_false db url hurlne hb hnodup]; simp)]
  rw [saveNews_fresh db _ url rfl hb hnourl]

/-- **C3** (implicit defect confirmed): the duplicate check queries storage
with the *normalized* URL while persistence stores the *original* one.
(a) For any well-formed URL carrying a denylisted query parameter,
`is_duplicate` returns `false` even against a store whose every row holds
exactly that URL.  (b) Feeding the pipeline that URL and its tracking-free
variant persists both, as two distinct article rows. -/
theorem c3_dedup_misses_stored_tracking_url (u : UrlParts) (src : RSSSource)
    (now : PyDateTime) (hwf : u.WF)
    (htrk : ∃ kv ∈ u.query, isTrackingParam kv.1 = true)
    (hsch : u.scheme = "https".toList) (hnow : now.Valid) :
    (∀ db : Db, db.broken = false →
      (∀ r ∈ db.news, r.url = buildUrl u) →
      isDuplicate db (some (buildUrl u)) = false) ∧
    (∀ db : Db, db.broken = false →
      (∀ r ∈ db.news, r.url ≠ buildUrl u ∧
        r.url ≠ normalizeUrl (buildUrl u)) →
      (processFeedEntries now src db
        [entryFor (buildUrl u), entryFor (normalizeUrl (buildUrl u))]).1
        = 2 ∧
      ∃ r1 r2 : NewsRow,
        (processFeedEntries now src db
          [entryFor (buildUrl u), entryFor (normalizeUrl (buildUrl u))]).2.news
          = db.news ++ [r1, r2] ∧
        r1.url = buildUrl u ∧ r2.url = normalizeUrl (buildUrl u) ∧
        r1.url ≠ r2.url) := by
  have hchar := normalizeUrl_buildUrl u hwf
  have hne' := buildUrl_filter_ne u hwf.2.2.2.1 htrk
  have hne : normalizeUrl (buildUrl u) ≠ buildUrl u := by
    rw [hchar]
    exact hne'
  have hwf' : UrlParts.WF { u with
      query := u.query.filter (fun kv => !isTrackingParam kv.1) } := by
    obtain ⟨hsP, hhP, hpP, hq1, hq2⟩ := hwf
    refine ⟨hsP, hhP, hpP, ?_, ?_⟩
    · exact fun kv hkv => hq1 kv (List.mem_filter.mp hkv).1
    · exact List.Nodup.sublist ((List.filter_sublist u.query).map _) hq2
  have hidem : normalizeUrl (normalizeUrl (buildUrl u)) =
      normalizeUrl (buildUrl u) := by
    rw [hchar, normalizeUrl_buildUrl _ hwf']
    have hff : (u.query.filter (fun kv => !isTrackingParam kv.1)).filter
        (fun kv => !isTrackingParam kv.1) =
        u.query.filter (fun kv => !isTrackingParam kv.1) :=
      List.filter_eq_self.mpr (fun a ha => (List.mem_filter.mp ha).2)
    rw [hff]
  have hpre1 : "https://".toList <+: buildUrl u ∨
      "http://".toList <+: buildUrl u :=
    Or.inl (buildUrl_https_isPrefix u hsch)
  have hpre2 : "https://".toList <+: normalizeUrl (buildUrl u) ∨
      "http://".toList <+: normalizeUrl (buildUrl u) := by
    rw [hchar]
    exact Or.inl (buildUrl_https_isPrefix _ hsch)
  have hvalid1 : isValidUrlOpt (some (buildUrl u)) = true :=
    isValidUrlOpt_buildUrl u hwf
  have hvalid2 : isValidUrlOpt (some (normalizeUrl (buildUrl u))) = true := by
    rw [hchar]
    exact isValidUrlOpt_buildUrl _ hwf'
  have hu1ne : buildUrl u ≠ [] := by
    rcases hpre1 with ⟨t, ht⟩ | ⟨t, ht⟩ <;> (rw [← ht]; simp)
  constructor
  · intro db hb hstore
    exact isDuplicate_eq_false db (buildUrl u) hu1ne hb
      (fun r hr => by rw [hstore r hr]; exact fun hcontra => hne hcontra.symm)
  · intro db hb habs
    have hstep1 := processEntry_fresh now src db (buildUrl u) hnow hb hpre1
      hvalid1 (fun r hr => (habs r hr).2) (fun r hr => (habs r hr).1)
    set db1 : Db := { db with
      news := db.news ++ [⟨db.nextNewsId, buildUrl u, "T".toList,
        "S".toList, "S".toList, src.name, now, none⟩],
      nextNewsId := db.nextNewsId + 1 } with hdb1
    have hb1 : db1.broken = false := hb
    have hstep2 := processEntry_fresh now src db1
      (normalizeUrl (buildUrl u)) hnow hb1 hpre2 hvalid2 ?hnodup2 ?hnourl2
    case hnodup2 =>
      intro r hr
      rw [hidem]
      rcases List.mem_append.mp hr with h | h
      · exact (habs r h).2
      · rw [List.mem_singleton] at h
        subst h
        exact fun hcontra => hne hcontra.symm
    case hnourl2 =>
      intro r hr
      rcases List.mem_append.mp hr with h | h
      · exact (habs r h).2
      · rw [List.mem_singleton] at h
        subst h
        exact fun hcontra => hne hcontra.symm
    rw [processFeedEntries_cons, hstep1]
    dsimp only
    rw [processFeedEntries_cons, hstep2]
    dsimp only
    refine ⟨rfl, ⟨db.nextNewsId, buildUrl u, "T".toList, "S".toList,
      "S".toList, src.name, now, none⟩,
      ⟨db1.nextNewsId, normalizeUrl (buildUrl u), "T".toList, "S".toList,
        "S".toList, src.name, now, none⟩, ?_, rfl, rfl, Ne.symm hne⟩
    show (db1.news ++ [_]) = _
    rw [hdb1]
    simp

/-- Witness for C3 at the concrete URL
`https://x.com/a?utm_source=y&b=2`, a one-row store holding exactly that
URL, and an empty store for the double insertion. -/
theorem c3_dedup_misses_stored_tracking_url_witness :
    isDuplicate
      ⟨[⟨1, buildUrl upW, "t".toList, [], [], [], ⟨2024, 1, 1, 0, 0, 0⟩,
        none⟩], [], [], 2, false⟩
      (some (buildUrl upW)) = false ∧
    (processFeedEntries ⟨2024, 6, 1, 12, 0, 0⟩ srcA ⟨[], [], [], 1, false⟩
      [entryFor (buildUrl upW), entryFor (normalizeUrl (buildUrl upW))]).1
      = 2 := by
  have hth := c3_dedup_misses_stored_tracking_url upW srcA
    ⟨2024, 6, 1, 12, 0, 0⟩ (by decide)
    ⟨("utm_source".toList, "y".toList), by decide, by decide⟩ (by decide)
    (by decide)
  refine ⟨hth.1 _ rfl ?_, (hth.2 ⟨[], [], [], 1, false⟩ rfl ?_).1⟩
  · intro r hr
    rcases List.mem_singleton.mp hr with rfl
    rfl
  · intro r hr
    exact absurd hr (List.not_mem_nil r)

end BlackNews
